import Mathlib

/-!
Verification of the image-location index module (`imageindex.js`) of the
plazas dashboard: the index builder, the tiered lookup engine
(`findImageUrls`), the local persistence layer and the staleness check.

The JavaScript module is shallowly embedded as pure Lean functions.
Mutable module state (`imagenIndex`, `aliasIndex`, `driveTreeVersion`,
`localStorage`) is threaded explicitly through a state record `St`; the
network endpoints consulted during one call are frozen in an environment
record `Env`.  JS `Map`s are association lists in insertion order (JS
iteration order); `localStorage` is an association list from keys to
structured values (`StoreVal`), abstracting the JSON string round-trip:
the module always parses what it itself stringified, so serialization is
modelled as the identity on structured payloads, while the literal text
produced by `JSON.stringify` is modelled separately (`jsonOfIndex`) where
payload size matters.  String operations (`trim`, `toLowerCase`,
`includes`, `padStart`) are re-implemented on character lists to mirror
the JS semantics on the ASCII data the module handles.
-/

/-- JS whitespace test for the characters relevant to `String.prototype.trim`. -/
def wsC (c : Char) : Bool := c = ' ' ∨ c = '\t' ∨ c = '\n' ∨ c = '\r'

/-- ASCII lower-casing of one character, as `toLowerCase` acts on the module's data. -/
def lowerC (c : Char) : Char :=
  if 'A' ≤ c ∧ c ≤ 'Z' then Char.ofNat (c.toNat + 32) else c

/-- Drop leading JS whitespace from a character list. -/
def trimLead (l : List Char) : List Char := l.dropWhile wsC

/-- JS `String.prototype.trim`: drop whitespace from both ends. -/
def trimS (s : String) : String :=
  String.mk ((trimLead ((trimLead s.data).reverse)).reverse)

/-- JS `String.prototype.toLowerCase` on ASCII data. -/
def toLowerS (s : String) : String := String.mk (s.data.map lowerC)

/-- The input normalization `clave.trim().toLowerCase()` used by the lookup engine. -/
def normQ (s : String) : String := toLowerS (trimS s)

/-- JS `String.prototype.length` (code units; the module's data is ASCII). -/
def lenS (s : String) : Nat := s.data.length

/-- JS `String.prototype.slice(n)` as used after a prefix strip. -/
def dropS (s : String) (n : Nat) : String := String.mk (s.data.drop n)

/-- List prefix test (computable). -/
def isPrefLC : List Char → List Char → Bool
  | [], _ => true
  | _ :: _, [] => false
  | a :: as, b :: bs => a = b && isPrefLC as bs

/-- List infix test: does `needle` occur contiguously inside `hay`? -/
def isInfLC (needle : List Char) : List Char → Bool
  | [] => isPrefLC needle []
  | c :: rest => isPrefLC needle (c :: rest) || isInfLC needle rest

/-- JS `String.prototype.startsWith`. -/
def startsWithS (s pre : String) : Bool := isPrefLC pre.data s.data

/-- JS `String.prototype.includes`. -/
def containsSub (s sub : String) : Bool := isInfLC sub.data s.data

/-- JS `String.prototype.padStart(len, c)`. -/
def padStartS (s : String) (len : Nat) (c : Char) : String :=
  String.mk (List.replicate (len - lenS s) c) ++ s

/-!
### The fallback key-pattern heuristic

`_normalizarClaveClienteFallback` runs the JS regular expression
`/([A-Za-z1l])-\s*(\d{2,3})-(\d{2,3})-(\d{2,3})/` with `exec` semantics:
leftmost match, greedy quantifiers with backtracking.  Since `\s*` is
followed by `\d` (disjoint character classes), maximal munch for `\s*`
is exact; the `{2,3}` groups try three digits first and fall back to two.
-/

/-- Character class `[A-Za-z1l]` of the pattern (ASCII letters plus the digit 1). -/
def patHeadC (c : Char) : Bool := (('A' ≤ c ∧ c ≤ 'Z') ∨ ('a' ≤ c ∧ c ≤ 'z')) ∨ c = '1'

/-- Character class `\d`. -/
def digC (c : Char) : Bool := '0' ≤ c ∧ c ≤ '9'

/-- Take exactly `n` digits from the front, returning them and the rest. -/
def takeDigits : Nat → List Char → Option (List Char × List Char)
  | 0, l => some ([], l)
  | _ + 1, [] => none
  | n + 1, c :: rest =>
    if digC c then (takeDigits n rest).map (fun p => (c :: p.1, p.2)) else none

/-- Match the final `(\d{2,3})` group (nothing follows it, so greedy 3 wins when possible). -/
def matchG4 (l : List Char) : Option String :=
  match takeDigits 3 l with
  | some (d, _) => some (String.mk d)
  | none =>
    match takeDigits 2 l with
    | some (d, _) => some (String.mk d)
    | none => none

/-- Match `(\d{2,3})-` followed by the last group, with greedy backtracking. -/
def matchG3 (l : List Char) : Option (String × String) :=
  (match takeDigits 3 l with
   | some (d, '-' :: r) => (matchG4 r).map (fun g4 => (String.mk d, g4))
   | _ => none) <|>
  (match takeDigits 2 l with
   | some (d, '-' :: r) => (matchG4 r).map (fun g4 => (String.mk d, g4))
   | _ => none)

/-- Match `(\d{2,3})-` followed by groups 3 and 4, with greedy backtracking. -/
def matchG2 (l : List Char) : Option (String × String × String) :=
  (match takeDigits 3 l with
   | some (d, '-' :: r) => (matchG3 r).map (fun p => (String.mk d, p.1, p.2))
   | _ => none) <|>
  (match takeDigits 2 l with
   | some (d, '-' :: r) => (matchG3 r).map (fun p => (String.mk d, p.1, p.2))
   | _ => none)

/-- Try the whole pattern anchored at the current position. -/
def matchAt : List Char → Option (String × String × String × String)
  | c :: '-' :: rest =>
    if patHeadC c then
      (matchG2 (rest.dropWhile wsC)).map (fun p => (String.mk [c], p.1, p.2.1, p.2.2))
    else none
  | _ => none

/-- `PATRON.exec`: leftmost match of the pattern, returning the four capture groups. -/
def execPatron : List Char → Option (String × String × String × String)
  | [] => none
  | c :: rest =>
    match matchAt (c :: rest) with
    | some r => some r
    | none => execPatron rest

/-- `_normalizarClaveClienteFallback`: client-side key normalization for legacy
tree payloads carrying `name` instead of `k`.  On a pattern match, coerces the
type letter (`L`/`1` → `I`), zero-pads the numeric segments and lower-cases;
otherwise returns the trimmed, lower-cased free-text name. -/
def _normalizarClaveClienteFallback (nombre : String) : String :=
  match execPatron nombre.data with
  | none => toLowerS (trimS nombre)
  | some (g1, g2, g3, g4) =>
    let tipo0 := String.mk (g1.data.map Char.toUpper)
    let tipo := if tipo0 = "L" ∨ tipo0 = "1" then ("I") else tipo0
    let e := padStartS g2 2 '0'
    let n := padStartS g3 3 '0'
    let p := padStartS g4 2 '0'
    toLowerS (tipo ++ "-" ++ e ++ "-" ++ n ++ "-" ++ p)

/-!
### Data model
-/

/-- One image entry recorded in the primary index: `{ name, url, size }`.
`name` and `size` may be absent in the remote payload (JS `undefined`). -/
structure Entry where
  name : Option String
  url : String
  size : Option Nat
deriving DecidableEq, Repr

/-- A file node of the remote tree: `{ i|id, n|name, s|size, mediumUrl|thumbnailUrl|directUrl }`. -/
structure FileItem where
  i : Option String := none
  id : Option String := none
  n : Option String := none
  name : Option String := none
  s : Option Nat := none
  size : Option Nat := none
  mediumUrl : Option String := none
  thumbnailUrl : Option String := none
  directUrl : Option String := none
deriving DecidableEq, Repr

/-- A plaza folder of the remote tree: `{ k?, alias?, name?, children? }`
(the `alias` field is spelled `aliasF` because `alias` is a Lean keyword). -/
structure Carpeta where
  k : Option String := none
  aliasF : Option String := none
  name : Option String := none
  children : Option (List FileItem) := none
deriving DecidableEq, Repr

/-- A region node of the remote tree: `{ children? }`. -/
structure NodoEstado where
  children : Option (List Carpeta) := none
deriving DecidableEq, Repr

/-- The remote tree payload; `structureChildren` models `driveData.structure?.children ?? []`. -/
structure DriveData where
  structureChildren : List NodoEstado
deriving DecidableEq, Repr

/-- The primary index: normalized key → ordered image entries (JS `Map` in insertion order). -/
abbrev IndexMap := List (String × List Entry)

/-- The alias index: lower-cased free-form name → primary key. -/
abbrev AliasMap := List (String × String)

/-- A `localStorage` value written by the module, with the JSON string
round-trip abstracted to the structured payload (the module always parses
what it itself stringified). -/
inductive StoreVal where
  | idx (entries : IndexMap)
  | als (entries : AliasMap)
  | meta (timestamp : Nat) (version : String) (carpetas : Nat) (archivos : Nat)
deriving DecidableEq, Repr

/-- The module's mutable state: the two in-memory maps, the held version
token (`null` initially) and the durable key-value store. -/
structure St where
  imagenIndex : IndexMap
  aliasIndex : AliasMap
  driveTreeVersion : Option String
  store : List (String × StoreVal)
deriving DecidableEq, Repr

/-- The remote world as observed during one call.  `versionFetch = some v`
models `/api/drive-tree-version` answering OK with a truthy
`version || lastModified` token `v`; `none` covers a failed fetch, a non-OK
response and absent/empty token fields.  `tree` is the `/api/drive-tree`
fetch (`Except.error` = network failure or non-OK status, which the code
raises as an exception).  `localImages` is the `/api/imagenes-local`
endpoint; `now` is `Date.now()` in milliseconds. -/
structure Env where
  versionFetch : Option String
  tree : Except String DriveData
  localImages : String → Except Unit (List String)
  now : Nat

/-- JS `Map.prototype.get` on an insertion-ordered association list. -/
def mapGet {α : Type} : List (String × α) → String → Option α
  | [], _ => none
  | (k', v) :: rest, k => if k' = k then some v else mapGet rest k

/-- JS `Map.prototype.set`: replace in place if the key exists, else append. -/
def mapSet {α : Type} : List (String × α) → String → α → List (String × α)
  | [], k, v => [(k, v)]
  | (k', v') :: rest, k, v =>
    if k' = k then (k, v) :: rest else (k', v') :: mapSet rest k v

example : _normalizarClaveClienteFallback ("Zona l- 01-002-03 x") = "i-01-002-03" := by decide
example : _normalizarClaveClienteFallback ("B-7-12-34") = "b-7-12-34" := by decide
example : _normalizarClaveClienteFallback ("Plaza Centro") = "plaza centro" := by decide
example : _normalizarClaveClienteFallback ("  ") = "" := by decide

/-!
### Index builder (`_descargarYConstruirIndice`)
-/

/-- `_driveUrl`: synthesize a thumbnail URL from a raw file identifier. -/
def _driveUrl (fileId : String) : String :=
  "https://drive.google.com/thumbnail?id=" ++ fileId ++ "&sz=w800"

/-- JS truthiness of an optional string (`undefined`/`null` and `""` are falsy). -/
def truthyS : Option String → Bool
  | some s => s ≠ ""
  | none => false

/-- Per-file resolution inside the folder loop: `fileId = item.i ?? item.id`,
`fileUrl = item.mediumUrl ?? item.thumbnailUrl ?? item.directUrl ?? (fileId ? _driveUrl(fileId) : null)`;
the file is accepted when `fileId && fileUrl` are truthy. -/
def fileEntry (item : FileItem) : Option Entry :=
  let fileId := item.i.or item.id
  let fileUrl := (item.mediumUrl.or (item.thumbnailUrl.or item.directUrl)).or
    (if truthyS fileId then fileId.map _driveUrl else none)
  if truthyS fileId ∧ truthyS fileUrl then
    match fileUrl with
    | some u => some { name := item.n.or item.name, url := u, size := item.s.or item.size }
    | none => none
  else none

/-- The accepted files of a folder, in tree order (`archivos`). -/
def buildFiles : List FileItem → List Entry
  | [] => []
  | item :: rest =>
    match fileEntry item with
    | some e => e :: buildFiles rest
    | none => buildFiles rest

/-- Per-folder key resolution: `carpeta.k ?? _normalizarClaveClienteFallback(carpeta.name ?? '')`. -/
def claveNormOf (carpeta : Carpeta) : String :=
  carpeta.k.getD (_normalizarClaveClienteFallback (carpeta.name.getD ("")))

/-- The builder's accumulator: the two maps plus the folder and file counters. -/
structure BuildAcc where
  nuevoIndice : IndexMap
  nuevoAlias : AliasMap
  totalCarpetas : Nat
  totalArchivos : Nat
deriving DecidableEq, Repr

/-- One iteration of the folder loop of `_descargarYConstruirIndice`:
skip folders without files, skip folders whose resolved key is falsy,
index the accepted files when non-empty and record the alias if present. -/
def procesarCarpeta (acc : BuildAcc) (carpeta : Carpeta) : BuildAcc :=
  match carpeta.children with
  | none => acc
  | some files =>
    if files.length = 0 then acc
    else
      if claveNormOf carpeta = "" then acc
      else
        if 0 < (buildFiles files).length then
          { nuevoIndice := mapSet acc.nuevoIndice (claveNormOf carpeta) (buildFiles files)
            nuevoAlias :=
              match carpeta.aliasF with
              | some al =>
                if al ≠ "" then mapSet acc.nuevoAlias (toLowerS al) (claveNormOf carpeta)
                else acc.nuevoAlias
              | none => acc.nuevoAlias
            totalCarpetas := acc.totalCarpetas + 1
            totalArchivos := acc.totalArchivos + (buildFiles files).length }
        else acc

/-- The flat two-level traversal of `_descargarYConstruirIndice` over the tree
payload (the download itself lives in `Env.tree`). -/
def buildFromTree (dd : DriveData) : BuildAcc :=
  dd.structureChildren.foldl
    (fun acc nodo =>
      match nodo.children with
      | none => acc
      | some carpetas => carpetas.foldl procesarCarpeta acc)
    { nuevoIndice := [], nuevoAlias := [], totalCarpetas := 0, totalArchivos := 0 }

/-!
### The text `JSON.stringify` produces for the index payload

The persistence layer stores `JSON.stringify(Array.from(imagenIndex.entries()))`.
The store itself is modelled structurally, but the literal text matters for
the payload-size question, so it is modelled here: entry objects keep the JS
insertion order `name, url, size` and omit `undefined` fields.
-/

/-- JSON escaping of one character (the escapes relevant to the module's data). -/
def jsonEscChar (c : Char) : List Char :=
  if c = '"' then ['\\', '"']
  else if c = '\\' then ['\\', '\\']
  else if c = '\n' then ['\\', 'n']
  else if c = '\t' then ['\\', 't']
  else if c = '\r' then ['\\', 'r']
  else [c]

/-- JSON escaping of a string body. -/
def jsonEscape (s : String) : String :=
  String.mk (s.data.foldr (fun c acc => jsonEscChar c ++ acc) [])

/-- A JSON string literal. -/
def jsonStr (s : String) : String := "\"" ++ jsonEscape s ++ "\""

/-- The JSON text of one index entry object. -/
def jsonEntry (e : Entry) : String :=
  "\x7b" ++
  (match e.name with
   | some nm => "\"name\":" ++ jsonStr nm ++ ","
   | none => "") ++
  "\"url\":" ++ jsonStr e.url ++
  (match e.size with
   | some sz => ",\"size\":" ++ toString sz
   | none => "") ++
  "\x7d"

/-- Comma-join a list of JSON fragments. -/
def jsonJoinC : List String → String
  | [] => ""
  | [x] => x
  | x :: y :: rest => x ++ "," ++ jsonJoinC (y :: rest)

/-- A JSON array from already-serialized elements. -/
def jsonArr (items : List String) : String := "[" ++ jsonJoinC items ++ "]"

/-- The JSON text of `Array.from(imagenIndex.entries())`: an array of
`[key, entries]` pairs. -/
def jsonOfIndex (m : IndexMap) : String :=
  jsonArr (m.map (fun p => jsonArr [jsonStr p.1, jsonArr (p.2.map jsonEntry)]))

example :
    jsonOfIndex [("i-01", [{ name := some ("a.jpg"), url := "u", size := some 7 }])] =
      "[[\"i-01\",[\x7b\"name\":\"a.jpg\",\"url\":\"u\",\"size\":7\x7d]]]" := by decide

/-!
### Local persistence layer
-/

/-- `TTL_CACHE_MS = 2 * 60 * 60 * 1000`: freshness TTL of a cached index. -/
def TTL_CACHE_MS : Nat := 2 * 60 * 60 * 1000

/-- `TTL_LIMPIEZA_MS = 7 * 24 * 60 * 60 * 1000`: long-term cleanup horizon. -/
def TTL_LIMPIEZA_MS : Nat := 7 * 24 * 60 * 60 * 1000

/-- `CACHE_PREFIX = 'imagenIndex_v'`. -/
def cachePref : String := "imagenIndex_v"

/-- `CACHE_META_PREFIX = 'imagenIndex_meta_v'`. -/
def cacheMetaPref : String := "imagenIndex_meta_v"

/-- Storage key of the serialized primary index for a version. -/
def idxKey (v : String) : String := cachePref ++ v

/-- Storage key of the serialized alias index for a version. -/
def alsKey (v : String) : String := cachePref ++ "alias_" ++ v

/-- Storage key of the metadata record for a version. -/
def metaKey (v : String) : String := cacheMetaPref ++ v

/-- The versions whose metadata record is older than the cleanup horizon
(`ahora - timestamp > TTL_LIMPIEZA_MS`); values of other shapes under a
metadata key are skipped, as their `timestamp` property would be `undefined`
and the `NaN` age comparison is false. -/
def staleVersOf (ahora : Nat) (store : List (String × StoreVal)) : List String :=
  store.foldr
    (fun p acc =>
      if startsWithS p.1 cacheMetaPref then
        match p.2 with
        | StoreVal.meta ts _ _ _ =>
          if TTL_LIMPIEZA_MS < ahora - ts then dropS p.1 (lenS cacheMetaPref) :: acc else acc
        | _ => acc
      else acc)
    []

/-- The cleanup pass at the end of `_guardarEnCacheLocal`: remove the index,
alias and metadata records of every stale version.  The JS loop walks the
live key list downwards removing as it goes; on a store whose keys are
unique (a `localStorage` invariant) the result is this filtered store. -/
def cleanupStore (ahora : Nat) (store : List (String × StoreVal)) : List (String × StoreVal) :=
  store.filter
    (fun p => !((staleVersOf ahora store).any
      (fun ver => p.1 = idxKey ver ∨ p.1 = alsKey ver ∨ p.1 = metaKey ver)))

/-- `_guardarEnCacheLocal`: skip entirely for an unknown version, otherwise
persist the index, the alias map and a fresh metadata record, then run the
incremental cleanup of versions older than the 7-day horizon.  The function
has no size ceiling: the payload is written whatever its serialized size. -/
def _guardarEnCacheLocal (env : Env) (st : St) (versionActual : String)
    (totalCarpetas totalArchivos : Nat) : St :=
  if versionActual = "unknown" then st
  else
    let store1 := mapSet st.store (idxKey versionActual) (StoreVal.idx st.imagenIndex)
    let store2 := mapSet store1 (alsKey versionActual) (StoreVal.als st.aliasIndex)
    let store3 := mapSet store2 (metaKey versionActual)
      (StoreVal.meta env.now versionActual totalCarpetas totalArchivos)
    { st with store := cleanupStore env.now store3 }

/-- Outcome record of `construirIndiceImagenes` (the JS result object, with
absent fields defaulted: `fromCache`/`isFallback` default to false, `stats`
and `err` to absent). -/
structure BuildResult where
  success : Bool
  fromCache : Bool := false
  isFallback : Bool := false
  stats : Option (Nat × Nat) := none
  err : Option String := none
deriving DecidableEq, Repr

/-- `_cargarDesdeCacheLocal`: restore the index for a version only when both
the index payload and its metadata record are present and the record is
strictly fresher than `TTL_CACHE_MS` (`Date.now() - timestamp >= TTL` is
stale).  A missing alias payload restores an empty alias map. -/
def _cargarDesdeCacheLocal (env : Env) (st : St) (versionActual : String) :
    Option (BuildResult × St) :=
  match mapGet st.store (idxKey versionActual), mapGet st.store (metaKey versionActual) with
  | some (StoreVal.idx d), some (StoreVal.meta ts _ _ _) =>
    if TTL_CACHE_MS ≤ env.now - ts then none
    else
      let als :=
        match mapGet st.store (alsKey versionActual) with
        | some (StoreVal.als a) => a
        | _ => []
      some ({ success := true, fromCache := true },
        { st with imagenIndex := d, aliasIndex := als, driveTreeVersion := some versionActual })
  | _, _ => none

/-- The scan of `_cargarFallbackLocal` over the storage keys in order:
the first key that looks like an index payload (`CACHE_PREFIX` prefix, not a
metadata or alias key) and has a metadata record — of any age: no TTL filter —
yields its version, index and alias map. -/
def fallbackScan (full : List (String × StoreVal)) :
    List (String × StoreVal) → Option (String × IndexMap × AliasMap)
  | [] => none
  | (key, val) :: rest =>
    if startsWithS key cachePref ∧ containsSub key ("_meta_") = false ∧
        containsSub key ("alias_") = false then
      let ver := dropS key (lenS cachePref)
      match mapGet full (metaKey ver) with
      | some _ =>
        match val with
        | StoreVal.idx d =>
          let als :=
            match mapGet full (alsKey ver) with
            | some (StoreVal.als a) => a
            | _ => []
          some (ver, d, als)
        | _ => none
      | none => fallbackScan full rest
    else fallbackScan full rest

/-- `_cargarFallbackLocal`: restore the first stored version found, whatever
its age, flagging the result as a fallback. -/
def _cargarFallbackLocal (st : St) : Option (BuildResult × St) :=
  match fallbackScan st.store st.store with
  | some (ver, d, als) =>
    some ({ success := true, fromCache := true, isFallback := true },
      { st with imagenIndex := d, aliasIndex := als, driveTreeVersion := some ver })
  | none => none

/-- The version token `construirIndiceImagenes` works with:
`d.version || d.lastModified || 'unknown'`, with fetch failures collapsed to
`'unknown'`. -/
def versionOf (env : Env) : String :=
  match env.versionFetch with
  | some v => v
  | none => "unknown"

/-- `construirIndiceImagenes`: the build orchestration.  Quick path when the
held version matches and an index exists; fresh-cache restore for a known
version; otherwise download and build, install the new maps, persist, and on
a download failure fall back to any stored version before reporting failure. -/
def construirIndiceImagenes (env : Env) (st : St) (forzarRecarga : Bool) : BuildResult × St :=
  if forzarRecarga = false ∧ st.driveTreeVersion = some (versionOf env) ∧
      0 < st.imagenIndex.length then
    ({ success := true, fromCache := true }, st)
  else
    match (if forzarRecarga = false ∧ versionOf env ≠ "unknown" then
        _cargarDesdeCacheLocal env st (versionOf env)
      else none) with
    | some r => r
    | none =>
      match env.tree with
      | Except.error msg =>
        match _cargarFallbackLocal st with
        | some r => r
        | none => ({ success := false, err := some msg }, st)
      | Except.ok dd =>
        ({ success := true, fromCache := false,
           stats := some ((buildFromTree dd).totalCarpetas, (buildFromTree dd).totalArchivos) },
          _guardarEnCacheLocal env
            { st with imagenIndex := (buildFromTree dd).nuevoIndice,
                      aliasIndex := (buildFromTree dd).nuevoAlias,
                      driveTreeVersion := some (versionOf env) }
            (versionOf env) (buildFromTree dd).totalCarpetas (buildFromTree dd).totalArchivos)

/-- Outcome of `verificarActualizacionIndice`. -/
structure ActOut where
  necesitaActualizar : Bool
  nuevaVersion : Option String := none
deriving DecidableEq, Repr

/-- `verificarActualizacionIndice`: an update is needed exactly when the
version endpoint yields a truthy token different from the held version;
fetch failures report no update needed. -/
def verificarActualizacionIndice (env : Env) (st : St) : ActOut :=
  match env.versionFetch with
  | none => { necesitaActualizar := false }
  | some v =>
    if some v ≠ st.driveTreeVersion then
      { necesitaActualizar := true, nuevaVersion := some v }
    else { necesitaActualizar := false }

/-!
### Lookup engine (`findImageUrls`)
-/

/-- `_buscarImagenesLocales`: the Tier-5 single-key endpoint; a failed or
empty response yields the empty list, never an error. -/
def _buscarImagenesLocales (env : Env) (clave : String) : List String :=
  match env.localImages clave with
  | Except.ok imgs => if 0 < imgs.length then imgs else []
  | Except.error _ => []

/-- Tier-3 acceptance: `carpeta.includes(claveNorm) || claveNorm.includes(carpeta)`. -/
def acceptQ (claveNorm carpeta : String) : Bool :=
  isInfLC claveNorm.data carpeta.data || isInfLC carpeta.data claveNorm.data

/-- Tier-3 score: `Math.abs(carpeta.length - claveNorm.length)`. -/
def scoreQ (claveNorm carpeta : String) : Nat :=
  max (lenS carpeta) (lenS claveNorm) - min (lenS carpeta) (lenS claveNorm)

/-- `score < mejorScore`, where the initial best score is `Infinity`. -/
def scoreLt (s : Nat) : Option Nat → Bool
  | none => true
  | some m => s < m

/-- The scan loop of `_busquedaParcial`: keep the strictly best-scoring
accepted candidate, breaking out at a perfect length match. -/
def buscarLoop (claveNorm : String) :
    List (String × List Entry) → Option Nat → Option (List Entry) → Option (List Entry)
  | [], _, best => best
  | (carpeta, archivos) :: rest, mejor, best =>
    if acceptQ claveNorm carpeta then
      let score := scoreQ claveNorm carpeta
      if scoreLt score mejor then
        if score = 0 then some archivos
        else buscarLoop claveNorm rest (some score) (some archivos)
      else buscarLoop claveNorm rest mejor best
    else buscarLoop claveNorm rest mejor best

/-- `_busquedaParcial`: substring search over the primary index, returning
the URLs of the best candidate, or the empty list when nothing is related. -/
def _busquedaParcial (idx : IndexMap) (claveNorm : String) : List String :=
  match buscarLoop claveNorm idx none none with
  | none => []
  | some archivos => archivos.map (fun img => img.url)

/-- Tier 1: exact hit in the primary index with a non-empty entry list. -/
def tryT1 (idx : IndexMap) (claveNorm : String) : Option (List String) :=
  match mapGet idx claveNorm with
  | some l => if 0 < l.length then some (l.map (fun img => img.url)) else none
  | none => none

/-- Tier 2: alias hit resolved through the primary index. -/
def tryT2 (st : St) (claveNorm : String) : Option (List String) :=
  match mapGet st.aliasIndex claveNorm with
  | some porAlias =>
    match mapGet st.imagenIndex porAlias with
    | some l => if 0 < l.length then some (l.map (fun img => img.url)) else none
    | none => none
  | none => none

/-- Which point of `findImageUrls` produced the answer (`t5` covers every
path that delegates to the local-images endpoint). -/
inductive Tier where
  | t1
  | t2
  | t3
  | t4
  | t5
deriving DecidableEq, Repr

/-- Instrumented outcome of `findImageUrls`: the returned URLs, the state
after the call, how many forced rebuilds ran, and the answering tier. -/
structure FindOut where
  result : List String
  st : St
  rebuilds : Nat
  tier : Tier
deriving Repr

/-- Tiers 1–5 of `findImageUrls` once an index is in place (lines after the
initial ensure-index step): exact, alias, fuzzy, staleness recovery with a
single Tier-1 retry, then the local-images endpoint. -/
def afterBuild (env : Env) (st : St) (claveNorm : String) : FindOut :=
  match tryT1 st.imagenIndex claveNorm with
  | some urls => { result := urls, st := st, rebuilds := 0, tier := Tier.t1 }
  | none =>
    match tryT2 st claveNorm with
    | some urls => { result := urls, st := st, rebuilds := 0, tier := Tier.t2 }
    | none =>
      if 0 < (_busquedaParcial st.imagenIndex claveNorm).length then
        { result := _busquedaParcial st.imagenIndex claveNorm, st := st, rebuilds := 0,
          tier := Tier.t3 }
      else
        if (verificarActualizacionIndice env st).necesitaActualizar then
          match mapGet (construirIndiceImagenes env st true).2.imagenIndex claveNorm with
          | some l =>
            if 0 < l.length then
              { result := l.map (fun img => img.url),
                st := (construirIndiceImagenes env st true).2, rebuilds := 1, tier := Tier.t4 }
            else
              { result := _buscarImagenesLocales env claveNorm,
                st := (construirIndiceImagenes env st true).2, rebuilds := 1, tier := Tier.t5 }
          | none =>
            { result := _buscarImagenesLocales env claveNorm,
              st := (construirIndiceImagenes env st true).2, rebuilds := 1, tier := Tier.t5 }
        else
          { result := _buscarImagenesLocales env claveNorm, st := st, rebuilds := 0,
            tier := Tier.t5 }

/-- `findImageUrls`: normalize the query, ensure an index exists (a failed
synchronous build degrades directly to Tier 5), then run the tiers.  The
function is total: every miss degrades to the Tier-5 endpoint whose own
failures yield the empty list. -/
def findImageUrls (env : Env) (st : St) (claveOriginal : String) : FindOut :=
  if normQ claveOriginal = "" then
    { result := _buscarImagenesLocales env (""), st := st, rebuilds := 0, tier := Tier.t5 }
  else
    if st.imagenIndex.length = 0 then
      if (construirIndiceImagenes env st false).1.success = false then
        { result := _buscarImagenesLocales env (normQ claveOriginal),
          st := (construirIndiceImagenes env st false).2, rebuilds := 0, tier := Tier.t5 }
      else afterBuild env (construirIndiceImagenes env st false).2 (normQ claveOriginal)
    else afterBuild env st (normQ claveOriginal)

/-- `getIndiceSize`. -/
def getIndiceSize (st : St) : Nat := st.imagenIndex.length

/-!
### Basic lemmas about the map and string models
-/

theorem mapGet_pos {α : Type} {m : List (String × α)} {k : String} {v : α}
    (h : mapGet m k = some v) : 0 < m.length := by
  cases m with
  | nil => simp [mapGet] at h
  | cons p rest => simp

theorem mapGet_mapSet_self {α : Type} (m : List (String × α)) (k : String) (v : α) :
    mapGet (mapSet m k v) k = some v := by
  induction m with
  | nil => simp [mapSet, mapGet]
  | cons p rest ih =>
    by_cases h : p.1 = k
    · simp [mapSet, mapGet, h]
    · simp [mapSet, mapGet, h, ih]

theorem mapGet_mapSet_ne {α : Type} (m : List (String × α)) (k k' : String) (v : α)
    (h : k' ≠ k) : mapGet (mapSet m k v) k' = mapGet m k' := by
  have hne : ¬(k = k') := fun e => h e.symm
  induction m with
  | nil => simp [mapSet, mapGet, hne]
  | cons p rest ih =>
    by_cases hp : p.1 = k
    · simp [mapSet, mapGet, hp, hne]
    · simp only [mapSet, if_neg hp]
      by_cases hp' : p.1 = k'
      · simp [mapGet, hp']
      · simp [mapGet, hp', ih]

theorem mem_keys_mapSet {α : Type} {m : List (String × α)} {k a : String} {v : α}
    (h : a ∈ (mapSet m k v).map Prod.fst) : a ∈ m.map Prod.fst ∨ a = k := by
  induction m with
  | nil =>
    simp only [mapSet, List.map_cons, List.map_nil, List.mem_singleton] at h
    exact Or.inr h
  | cons p rest ih =>
    by_cases hp : p.1 = k
    · rw [mapSet, if_pos hp] at h
      simp only [List.map_cons, List.mem_cons] at h
      rcases h with h | h
      · exact Or.inr h
      · exact Or.inl (by simp only [List.map_cons, List.mem_cons]; exact Or.inr h)
    · rw [mapSet, if_neg hp] at h
      simp only [List.map_cons, List.mem_cons] at h
      rcases h with h | h
      · exact Or.inl (by simp only [List.map_cons, List.mem_cons]; exact Or.inl h)
      · rcases ih h with h' | h'
        · exact Or.inl (by simp only [List.map_cons, List.mem_cons]; exact Or.inr h')
        · exact Or.inr h'

theorem nodup_keys_mapSet {α : Type} {m : List (String × α)} (k : String) (v : α)
    (h : (m.map Prod.fst).Nodup) : ((mapSet m k v).map Prod.fst).Nodup := by
  induction m with
  | nil => simp [mapSet]
  | cons p rest ih =>
    simp only [List.map_cons, List.nodup_cons] at h
    by_cases hp : p.1 = k
    · simp only [mapSet, if_pos hp, List.map_cons, List.nodup_cons]
      exact ⟨by rw [← hp]; exact h.1, h.2⟩
    · simp only [mapSet, if_neg hp, List.map_cons, List.nodup_cons]
      refine ⟨fun hmem => ?_, ih h.2⟩
      rcases mem_keys_mapSet hmem with h' | h'
      · exact h.1 h'
      · exact hp h'

theorem mapGet_of_mem_nodup {α : Type} {m : List (String × α)} {k : String} {v : α}
    (hmem : (k, v) ∈ m) (hnd : (m.map Prod.fst).Nodup) : mapGet m k = some v := by
  induction m with
  | nil => simp at hmem
  | cons p rest ih =>
    simp only [List.map_cons, List.nodup_cons] at hnd
    rcases List.mem_cons.mp hmem with h | h
    · simp [mapGet, ← h]
    · have hne : p.1 ≠ k := by
        intro he
        exact hnd.1 (he ▸ List.mem_map_of_mem Prod.fst h)
      simp [mapGet, hne, ih h hnd.2]

theorem mapGet_filter {α : Type} {m : List (String × α)} {k : String}
    (p : String × α → Bool) (h : ∀ v, (k, v) ∈ m → p (k, v) = true) :
    mapGet (m.filter p) k = mapGet m k := by
  induction m with
  | nil => simp
  | cons q rest ih =>
    by_cases hq : q.1 = k
    · have : p q = true := by
        have := h q.2 (by simp [← hq])
        simpa [← hq] using this
      simp [List.filter, this, mapGet, hq]
    · by_cases hpq : p q = true
      · simp only [List.filter, hpq, mapGet, if_neg hq]
        exact ih (fun v hv => h v (List.mem_cons_of_mem _ hv))
      · simp only [List.filter, Bool.not_eq_true] at hpq ⊢
        rw [hpq]
        rw [mapGet, if_neg hq]
        exact ih (fun v hv => h v (List.mem_cons_of_mem _ hv))

theorem dataAppend (s t : String) : (s ++ t).data = s.data ++ t.data := rfl

theorem dataMk (l : List Char) : (String.mk l).data = l := rfl

theorem mkData (s : String) : String.mk s.data = s := rfl

theorem stringExt {s t : String} (h : s.data = t.data) : s = t := by
  cases s; cases t; exact congrArg String.mk h

theorem lenS_append (s t : String) : lenS (s ++ t) = lenS s + lenS t := by
  simp [lenS, dataAppend]

theorem isPrefLC_self_append (a l : List Char) : isPrefLC a (a ++ l) = true := by
  induction a with
  | nil => rfl
  | cons c rest ih => simp [isPrefLC, ih]

theorem isPrefLC_append_drop {a b : List Char} (h : isPrefLC a b = true) :
    a ++ b.drop a.length = b := by
  induction a generalizing b with
  | nil => simp
  | cons c rest ih =>
    cases b with
    | nil => simp [isPrefLC] at h
    | cons c' rest' =>
      simp only [isPrefLC, Bool.and_eq_true, decide_eq_true_eq] at h
      simp [h.1, ih h.2]

/-!
### Storage-key discrimination

All three storage-key families share the 13-character prefix
`imagenIndex_v` except the metadata family, whose 13th character is `m`;
this separates metadata keys from index and alias keys for every version
string, and each family is injective in the version.
-/

theorem char12_idxKey (v : String) : (idxKey v).data[12]? = some 'v' := by
  have h : (idxKey v).data = cachePref.data ++ v.data := dataAppend cachePref v
  rw [h, List.getElem?_append, if_pos (by decide)]
  decide

theorem char12_alsKey (v : String) : (alsKey v).data[12]? = some 'v' := by
  have h : (alsKey v).data = cachePref.data ++ ("alias_".data ++ v.data) := by
    show ((cachePref ++ "alias_") ++ v).data = _
    rw [dataAppend, dataAppend, List.append_assoc]
  rw [h, List.getElem?_append, if_pos (by decide)]
  decide

theorem char12_metaKey (v : String) : (metaKey v).data[12]? = some 'm' := by
  have h : (metaKey v).data = cacheMetaPref.data ++ v.data := dataAppend cacheMetaPref v
  rw [h, List.getElem?_append, if_pos (by decide)]
  decide

theorem idxKey_ne_metaKey (v ver : String) : idxKey v ≠ metaKey ver := by
  intro h
  have := (char12_idxKey v).symm.trans ((congrArg (fun s => s.data[12]?) h).trans
    (char12_metaKey ver))
  simp at this

theorem alsKey_ne_metaKey (v ver : String) : alsKey v ≠ metaKey ver := by
  intro h
  have := (char12_alsKey v).symm.trans ((congrArg (fun s => s.data[12]?) h).trans
    (char12_metaKey ver))
  simp at this

theorem idxKey_inj {v ver : String} (h : idxKey v = idxKey ver) : v = ver := by
  have hd : cachePref.data ++ v.data = cachePref.data ++ ver.data := congrArg String.data h
  exact stringExt (List.append_cancel_left hd)

theorem metaKey_inj {v ver : String} (h : metaKey v = metaKey ver) : v = ver := by
  have hd : cacheMetaPref.data ++ v.data = cacheMetaPref.data ++ ver.data := congrArg String.data h
  exact stringExt (List.append_cancel_left hd)

theorem idxKey_eq_alsKey {v ver : String} (h : idxKey v = alsKey ver) :
    v = "alias_" ++ ver := by
  have hd : cachePref.data ++ v.data = cachePref.data ++ ("alias_".data ++ ver.data) := by
    have h0 : cachePref.data ++ v.data = (cachePref.data ++ "alias_".data) ++ ver.data :=
      congrArg String.data h
    rw [h0, List.append_assoc]
  have hv : v.data = "alias_".data ++ ver.data := List.append_cancel_left hd
  exact stringExt hv

theorem startsWithS_append (pre t : String) : startsWithS (pre ++ t) pre = true := by
  show isPrefLC pre.data (pre ++ t).data = true
  rw [dataAppend]
  exact isPrefLC_self_append pre.data t.data

/-- Reconstruct a full metadata key from its version suffix. -/
theorem metaKey_dropS {s : String} (h : startsWithS s cacheMetaPref = true) :
    metaKey (dropS s (lenS cacheMetaPref)) = s := by
  refine stringExt ?_
  show cacheMetaPref.data ++ s.data.drop cacheMetaPref.data.length = s.data
  exact isPrefLC_append_drop h

/-- A version listed by the cleanup scan really has a stale metadata record
in the store. -/
theorem mem_staleVersOf {ahora : Nat} {store : List (String × StoreVal)} {ver : String}
    (h : ver ∈ staleVersOf ahora store) :
    ∃ ts vv c a, (metaKey ver, StoreVal.meta ts vv c a) ∈ store ∧
      TTL_LIMPIEZA_MS < ahora - ts := by
  induction store with
  | nil => simp [staleVersOf] at h
  | cons p rest ih =>
    obtain ⟨key, val⟩ := p
    have hrest : ver ∈ staleVersOf ahora rest →
        ∃ ts vv c a, (metaKey ver, StoreVal.meta ts vv c a) ∈ (key, val) :: rest ∧
          TTL_LIMPIEZA_MS < ahora - ts := by
      intro hr
      rcases ih hr with ⟨ts, vv, c, a, hmem, hst⟩
      exact ⟨ts, vv, c, a, List.mem_cons_of_mem _ hmem, hst⟩
    by_cases hpre : startsWithS key cacheMetaPref = true
    · cases val with
      | idx d =>
        have h0 : ver ∈ (if startsWithS key cacheMetaPref = true then
            staleVersOf ahora rest else staleVersOf ahora rest) := h
        rw [ite_self] at h0
        exact hrest h0
      | als a =>
        have h0 : ver ∈ (if startsWithS key cacheMetaPref = true then
            staleVersOf ahora rest else staleVersOf ahora rest) := h
        rw [ite_self] at h0
        exact hrest h0
      | meta ts vv c ar =>
        have h' : ver ∈ (if TTL_LIMPIEZA_MS < ahora - ts then
            dropS key (lenS cacheMetaPref) :: staleVersOf ahora rest
          else staleVersOf ahora rest) := by
          have h0 : ver ∈ (if startsWithS key cacheMetaPref = true then
              (if TTL_LIMPIEZA_MS < ahora - ts then
                dropS key (lenS cacheMetaPref) :: staleVersOf ahora rest
              else staleVersOf ahora rest)
            else staleVersOf ahora rest) := h
          rwa [if_pos hpre] at h0
        by_cases hstale : TTL_LIMPIEZA_MS < ahora - ts
        · rw [if_pos hstale] at h'
          rcases List.mem_cons.mp h' with he | hr
          · refine ⟨ts, vv, c, ar, ?_, hstale⟩
            have hkey : metaKey ver = key := by rw [he]; exact metaKey_dropS hpre
            rw [hkey]
            exact List.mem_cons_self _ _
          · exact hrest hr
        · rw [if_neg hstale] at h'
          exact hrest h'
    · cases val with
      | idx d =>
        have h0 : ver ∈ (if startsWithS key cacheMetaPref = true then
            staleVersOf ahora rest else staleVersOf ahora rest) := h
        rw [ite_self] at h0
        exact hrest h0
      | als a =>
        have h0 : ver ∈ (if startsWithS key cacheMetaPref = true then
            staleVersOf ahora rest else staleVersOf ahora rest) := h
        rw [ite_self] at h0
        exact hrest h0
      | meta ts vv c ar =>
        have h0 : ver ∈ (if startsWithS key cacheMetaPref = true then
            (if TTL_LIMPIEZA_MS < ahora - ts then
              dropS key (lenS cacheMetaPref) :: staleVersOf ahora rest
            else staleVersOf ahora rest)
          else staleVersOf ahora rest) := h
        rw [if_neg hpre] at h0
        exact hrest h0

/-!
### Builder invariants

The folder loop only ever inserts a non-empty file list under a non-empty
key, and only records an alias in the same step that (re-)inserts its
target key, so at every point of the build: index values are non-empty,
the empty string is never a key, and every alias target resolves to a
non-empty entry list.
-/

/-- The joint invariant maintained by `procesarCarpeta`. -/
def BuildInv (acc : BuildAcc) : Prop :=
  (∀ k l, mapGet acc.nuevoIndice k = some l → k ≠ "" ∧ 0 < l.length) ∧
  (∀ a k, mapGet acc.nuevoAlias a = some k →
    a ≠ "" ∧ ∃ l, mapGet acc.nuevoIndice k = some l ∧ 0 < l.length)

theorem toLowerS_ne_empty {s : String} (h : s ≠ "") : toLowerS s ≠ "" := by
  intro he
  apply h
  have hd : s.data.map lowerC = [] := congrArg String.data he
  have hnil : s.data = [] := by
    cases hs : s.data with
    | nil => rfl
    | cons c rest => rw [hs] at hd; simp at hd
  exact stringExt hnil

theorem procesarCarpeta_inv {acc : BuildAcc} (carpeta : Carpeta) (h : BuildInv acc) :
    BuildInv (procesarCarpeta acc carpeta) := by
  unfold procesarCarpeta
  cases carpeta.children with
  | none => exact h
  | some files =>
    by_cases hlen : files.length = 0
    · simpa [hlen] using h
    · simp only [if_neg hlen]
      by_cases hclave : claveNormOf carpeta = ""
      · simpa [hclave] using h
      · simp only [if_neg hclave]
        by_cases harch : 0 < (buildFiles files).length
        · simp only [if_pos harch]
          have hidx' : ∀ k l,
              mapGet (mapSet acc.nuevoIndice (claveNormOf carpeta) (buildFiles files)) k =
                some l → k ≠ "" ∧ 0 < l.length := by
            intro k l hget
            by_cases hk : k = claveNormOf carpeta
            · rw [hk, mapGet_mapSet_self] at hget
              cases hget
              exact ⟨hk ▸ hclave, harch⟩
            · rw [mapGet_mapSet_ne _ _ _ _ hk] at hget
              exact h.1 k l hget
          have hpres : ∀ k, (∃ l, mapGet acc.nuevoIndice k = some l ∧ 0 < l.length) →
              ∃ l, mapGet (mapSet acc.nuevoIndice (claveNormOf carpeta) (buildFiles files)) k =
                some l ∧ 0 < l.length := by
            intro k hex
            rcases hex with ⟨l, hgl, hl⟩
            by_cases hk : k = claveNormOf carpeta
            · exact ⟨buildFiles files, by rw [hk, mapGet_mapSet_self], harch⟩
            · exact ⟨l, by rw [mapGet_mapSet_ne _ _ _ _ hk]; exact hgl, hl⟩
          refine ⟨hidx', ?_⟩
          intro a k hget
          cases hal : carpeta.aliasF with
          | none =>
            rw [hal] at hget
            rcases h.2 a k hget with ⟨hane, hex⟩
            exact ⟨hane, hpres k hex⟩
          | some al =>
            rw [hal] at hget
            have hget' : mapGet (if al ≠ "" then
                mapSet acc.nuevoAlias (toLowerS al) (claveNormOf carpeta)
              else acc.nuevoAlias) a = some k := hget
            by_cases halne : al ≠ ""
            · rw [if_pos halne] at hget'
              by_cases ha : a = toLowerS al
              · rw [ha, mapGet_mapSet_self] at hget'
                cases hget'
                exact ⟨ha ▸ toLowerS_ne_empty halne,
                  buildFiles files, mapGet_mapSet_self _ _ _, harch⟩
              · rw [mapGet_mapSet_ne _ _ _ _ ha] at hget'
                rcases h.2 a k hget' with ⟨hane, hex⟩
                exact ⟨hane, hpres k hex⟩
            · rw [if_neg halne] at hget'
              rcases h.2 a k hget' with ⟨hane, hex⟩
              exact ⟨hane, hpres k hex⟩
        · simpa [if_neg harch] using h

theorem buildFromTree_inv (dd : DriveData) : BuildInv (buildFromTree dd) := by
  have hfold : ∀ (cs : List Carpeta) (acc : BuildAcc), BuildInv acc →
      BuildInv (cs.foldl procesarCarpeta acc) := by
    intro cs
    induction cs with
    | nil => intro acc h; exact h
    | cons c rest ih => intro acc h; exact ih _ (procesarCarpeta_inv c h)
  have hnodes : ∀ (ns : List NodoEstado) (acc : BuildAcc), BuildInv acc →
      BuildInv (ns.foldl (fun acc nodo =>
        match nodo.children with
        | none => acc
        | some carpetas => carpetas.foldl procesarCarpeta acc) acc) := by
    intro ns
    induction ns with
    | nil => intro acc h; exact h
    | cons n rest ih =>
      intro acc h
      apply ih
      show BuildInv (match n.children with
        | none => acc
        | some carpetas => carpetas.foldl procesarCarpeta acc)
      cases hn : n.children with
      | none => exact h
      | some cs => exact hfold cs acc h
  refine hnodes dd.structureChildren _ ?_
  constructor
  · intro k l hget; simp [mapGet] at hget
  · intro a k hget; simp [mapGet] at hget

/-!
### Fuzzy search: the scan returns the first best-scoring candidate

`buscarLoop` is characterized against `firstMinQ`, the left-biased first
minimizer of the score among accepted candidates; the early exit at score
zero agrees with it because no score is below zero.
-/

/-- The first accepted candidate of minimal score, with its score. -/
def firstMinQ (claveNorm : String) :
    List (String × List Entry) → Option (Nat × List Entry)
  | [] => none
  | (c, a) :: rest =>
    if acceptQ claveNorm c then
      match firstMinQ claveNorm rest with
      | none => some (scoreQ claveNorm c, a)
      | some (s', a') =>
        if scoreQ claveNorm c ≤ s' then some (scoreQ claveNorm c, a) else some (s', a')
    else firstMinQ claveNorm rest

theorem buscarLoop_some {q : String} (l : List (String × List Entry)) (m : Nat)
    (acc : List Entry) (hm : 0 < m) :
    buscarLoop q l (some m) (some acc) =
      (match firstMinQ q l with
       | none => some acc
       | some (s', a') => if s' < m then some a' else some acc) := by
  induction l generalizing m acc with
  | nil => rfl
  | cons p rest ih =>
    obtain ⟨c, a⟩ := p
    by_cases hacc : acceptQ q c = true
    · simp only [buscarLoop, firstMinQ, hacc, if_true]
      by_cases hlt : scoreQ q c < m
      · have hsl : scoreLt (scoreQ q c) (some m) = true := by
          simp [scoreLt, hlt]
        rw [if_pos hsl]
        by_cases h0 : scoreQ q c = 0
        · rw [if_pos h0]
          cases hfm : firstMinQ q rest with
          | none => simp [hlt]
          | some p' =>
            obtain ⟨s', a'⟩ := p'
            have : scoreQ q c ≤ s' := h0 ▸ Nat.zero_le s'
            simp only [this, if_pos]
            simp [hlt]
        · rw [if_neg h0]
          rw [ih _ _ (Nat.pos_of_ne_zero h0)]
          cases hfm : firstMinQ q rest with
          | none => simp [hlt]
          | some p' =>
            obtain ⟨s', a'⟩ := p'
            by_cases hle : scoreQ q c ≤ s'
            · have hns : ¬ s' < scoreQ q c := Nat.not_lt.mpr hle
              simp only [if_pos hle, if_neg hns]
              simp [hlt]
            · have hs' : s' < scoreQ q c := Nat.lt_of_not_le hle
              simp only [if_neg hle, if_pos hs']
              have : s' < m := Nat.lt_trans hs' hlt
              simp [this]
      · have hsl : scoreLt (scoreQ q c) (some m) = false := by
          simp [scoreLt, hlt]
        rw [hsl]
        simp only [Bool.false_eq_true, if_false]
        rw [ih _ _ hm]
        cases hfm : firstMinQ q rest with
        | none => simp [hlt]
        | some p' =>
          obtain ⟨s', a'⟩ := p'
          have hmle : m ≤ scoreQ q c := Nat.not_lt.mp hlt
          by_cases hle : scoreQ q c ≤ s'
          · have h1 : ¬ scoreQ q c < m := hlt
            have h2 : ¬ s' < m := Nat.not_lt.mpr (Nat.le_trans hmle hle)
            simp only [if_pos hle]
            simp [h1, h2]
          · simp only [if_neg hle]
    · simp only [Bool.not_eq_true] at hacc
      simp only [buscarLoop, firstMinQ, hacc]
      simp only [Bool.false_eq_true, if_false]
      exact ih _ _ hm

theorem buscarLoop_none {q : String} (l : List (String × List Entry)) :
    buscarLoop q l none none = (firstMinQ q l).map Prod.snd := by
  induction l with
  | nil => rfl
  | cons p rest ih =>
    obtain ⟨c, a⟩ := p
    by_cases hacc : acceptQ q c = true
    · simp only [buscarLoop, firstMinQ, hacc, if_true]
      have hsl : scoreLt (scoreQ q c) none = true := rfl
      rw [if_pos hsl]
      by_cases h0 : scoreQ q c = 0
      · rw [if_pos h0]
        cases hfm : firstMinQ q rest with
        | none => rfl
        | some p' =>
          obtain ⟨s', a'⟩ := p'
          have : scoreQ q c ≤ s' := h0 ▸ Nat.zero_le s'
          simp [this]
      · rw [if_neg h0]
        rw [buscarLoop_some rest _ _ (Nat.pos_of_ne_zero h0)]
        cases hfm : firstMinQ q rest with
        | none => rfl
        | some p' =>
          obtain ⟨s', a'⟩ := p'
          by_cases hle : scoreQ q c ≤ s'
          · have hns : ¬ s' < scoreQ q c := Nat.not_lt.mpr hle
            simp [hle, hns]
          · have hs' : s' < scoreQ q c := Nat.lt_of_not_le hle
            simp [hle, hs']
    · simp only [Bool.not_eq_true] at hacc
      simp only [buscarLoop, firstMinQ, hacc]
      simp only [Bool.false_eq_true, if_false]
      exact ih

theorem busquedaParcial_firstMin (idx : IndexMap) (q : String) :
    _busquedaParcial idx q =
      (match firstMinQ q idx with
       | none => []
       | some (_, a) => a.map (fun img => img.url)) := by
  unfold _busquedaParcial
  rw [buscarLoop_none]
  cases firstMinQ q idx with
  | none => rfl
  | some p => cases p; rfl

theorem firstMinQ_none_iff {q : String} {l : List (String × List Entry)} :
    firstMinQ q l = none ↔ ∀ c a, (c, a) ∈ l → acceptQ q c = false := by
  induction l with
  | nil => simp [firstMinQ]
  | cons p rest ih =>
    obtain ⟨c0, a0⟩ := p
    constructor
    · intro h c a hmem
      by_cases hacc : acceptQ q c0 = true
      · exfalso
        simp only [firstMinQ, hacc, if_true] at h
        cases hfm : firstMinQ q rest with
        | none => rw [hfm] at h; exact Option.noConfusion h
        | some p' =>
          obtain ⟨s', a'⟩ := p'
          rw [hfm] at h
          have h' : (if scoreQ q c0 ≤ s' then some (scoreQ q c0, a0)
              else some (s', a')) = none := h
          split at h' <;> exact Option.noConfusion h'
      · simp only [Bool.not_eq_true] at hacc
        simp only [firstMinQ, hacc, Bool.false_eq_true, if_false] at h
        rcases List.mem_cons.mp hmem with he | hmem'
        · cases he; exact hacc
        · exact ih.mp h c a hmem'
    · intro h
      have hacc : acceptQ q c0 = false := h c0 a0 (List.mem_cons_self _ _)
      simp only [firstMinQ, hacc, Bool.false_eq_true, if_false]
      exact ih.mpr (fun c a hm => h c a (List.mem_cons_of_mem _ hm))

theorem firstMinQ_spec {q : String} {l : List (String × List Entry)} {s : Nat}
    {a : List Entry} (h : firstMinQ q l = some (s, a)) :
    ∃ c, (c, a) ∈ l ∧ acceptQ q c = true ∧ scoreQ q c = s ∧
      ∀ c' a', (c', a') ∈ l → acceptQ q c' = true → s ≤ scoreQ q c' := by
  induction l generalizing s a with
  | nil => simp [firstMinQ] at h
  | cons p rest ih =>
    obtain ⟨c0, a0⟩ := p
    by_cases hacc : acceptQ q c0 = true
    · simp only [firstMinQ, hacc, if_true] at h
      cases hfm : firstMinQ q rest with
      | none =>
        rw [hfm] at h
        cases h
        refine ⟨c0, List.mem_cons_self _ _, hacc, rfl, ?_⟩
        intro c' a' hmem hacc'
        rcases List.mem_cons.mp hmem with he | hmem'
        · cases he; exact Nat.le_refl _
        · exact absurd hacc' (by simp [firstMinQ_none_iff.mp hfm c' a' hmem'])
      | some p' =>
        obtain ⟨s', b'⟩ := p'
        rw [hfm] at h
        have h' : (if scoreQ q c0 ≤ s' then some (scoreQ q c0, a0)
            else some (s', b')) = some (s, a) := h
        rcases ih hfm with ⟨c', hmem', hacc', hs', hmin'⟩
        by_cases hle : scoreQ q c0 ≤ s'
        · rw [if_pos hle] at h'
          cases h'
          refine ⟨c0, List.mem_cons_self _ _, hacc, rfl, ?_⟩
          intro c'' a'' hmem'' hacc''
          rcases List.mem_cons.mp hmem'' with he | hmem''
          · cases he; exact Nat.le_refl _
          · exact Nat.le_trans (hs' ▸ hle) (hmin' c'' a'' hmem'' hacc'')
        · rw [if_neg hle] at h'
          cases h'
          refine ⟨c', List.mem_cons_of_mem _ hmem', hacc', hs', ?_⟩
          intro c'' a'' hmem'' hacc''
          rcases List.mem_cons.mp hmem'' with he | hmem''
          · cases he; exact Nat.le_of_lt (Nat.lt_of_not_le hle)
          · exact hmin' c'' a'' hmem'' hacc''
    · simp only [Bool.not_eq_true] at hacc
      simp only [firstMinQ, hacc, Bool.false_eq_true, if_false] at h
      rcases ih h with ⟨c', hmem', hacc', hs', hmin'⟩
      refine ⟨c', List.mem_cons_of_mem _ hmem', hacc', hs', ?_⟩
      intro c'' a'' hmem'' hacc''
      rcases List.mem_cons.mp hmem'' with he | hmem''
      · cases he; exact absurd hacc'' (by simp [hacc])
      · exact hmin' c'' a'' hmem'' hacc''

/-- Left-biased combination of the first minimizers of two list segments. -/
def combineMin :
    Option (Nat × List Entry) → Option (Nat × List Entry) → Option (Nat × List Entry)
  | none, r => r
  | some p, none => some p
  | some p, some p' => if p.1 ≤ p'.1 then some p else some p'
theorem combineMin_assoc (A B C : Option (Nat × List Entry)) :
    combineMin (combineMin A B) C = combineMin A (combineMin B C) := by
  cases A with
  | none => rfl
  | some pa =>
    cases B with
    | none => rfl
    | some pb =>
      cases C with
      | none => simp only [combineMin]; split_ifs <;> rfl
      | some pc =>
        simp only [combineMin]
        split_ifs <;> simp only [combineMin] <;> split_ifs <;> first | rfl | omega

theorem firstMinQ_cons_accept {q c : String} {a : List Entry}
    (l : List (String × List Entry)) (h : acceptQ q c = true) :
    firstMinQ q ((c, a) :: l) = combineMin (some (scoreQ q c, a)) (firstMinQ q l) := by
  simp only [firstMinQ, h, if_true]
  cases firstMinQ q l with
  | none => rfl
  | some p => obtain ⟨s', a'⟩ := p; rfl

theorem firstMinQ_cons_reject {q c : String} {a : List Entry}
    (l : List (String × List Entry)) (h : acceptQ q c = false) :
    firstMinQ q ((c, a) :: l) = firstMinQ q l := by
  simp [firstMinQ, h]

theorem firstMinQ_append (q : String) (x y : List (String × List Entry)) :
    firstMinQ q (x ++ y) = combineMin (firstMinQ q x) (firstMinQ q y) := by
  induction x with
  | nil => rw [List.nil_append]; cases firstMinQ q y <;> rfl
  | cons p rest ih =>
    obtain ⟨c, a⟩ := p
    rw [List.cons_append]
    by_cases hacc : acceptQ q c = true
    · rw [firstMinQ_cons_accept _ hacc, firstMinQ_cons_accept _ hacc, ih, combineMin_assoc]
    · have hacc' : acceptQ q c = false := by simpa using hacc
      rw [firstMinQ_cons_reject _ hacc', firstMinQ_cons_reject _ hacc', ih]

/-- C3.  For a normalized query, the fuzzy tier accepts a stored key exactly
when one is a substring of the other; with no accepted candidate it returns
the empty list, and otherwise it returns the URLs of an accepted candidate
whose absolute length difference to the query is minimal (the early exit at a
zero difference cannot skip a better candidate, as scores are non-negative). -/
theorem C3_fuzzy_minimizes_length_difference (idx : IndexMap) (q : String) :
    ((∀ c a, (c, a) ∈ idx → acceptQ q c = false) → _busquedaParcial idx q = []) ∧
    ((∃ c a, (c, a) ∈ idx ∧ acceptQ q c = true) →
      ∃ c a, (c, a) ∈ idx ∧ acceptQ q c = true ∧
        (∀ c' a', (c', a') ∈ idx → acceptQ q c' = true → scoreQ q c ≤ scoreQ q c') ∧
        _busquedaParcial idx q = a.map (fun img => img.url)) := by
  constructor
  · intro h
    rw [busquedaParcial_firstMin, firstMinQ_none_iff.mpr h]
  · rintro ⟨c0, a0, hmem, hacc⟩
    cases hfm : firstMinQ q idx with
    | none => exact absurd (firstMinQ_none_iff.mp hfm c0 a0 hmem) (by simp [hacc])
    | some p =>
      obtain ⟨s, a⟩ := p
      rcases firstMinQ_spec hfm with ⟨c, hmem', hacc', hs, hmin⟩
      refine ⟨c, a, hmem', hacc', ?_, ?_⟩
      · intro c' a' hm' ha'
        rw [hs]
        exact hmin c' a' hm' ha'
      · rw [busquedaParcial_firstMin, hfm]

/-- Concrete index for the C3 witness: Scenario C's stored key contains the query. -/
def wIdx3 : IndexMap :=
  [("zzzzzz", [{ name := none, url := "uz", size := none }]),
   ("i-01-002-03x", [{ name := none, url := "u1", size := none },
                     { name := none, url := "u2", size := none }])]

theorem C3_fuzzy_minimizes_length_difference_witness :
    ∃ c a, (c, a) ∈ wIdx3 ∧ acceptQ ("002-03") c = true ∧
      (∀ c' a', (c', a') ∈ wIdx3 → acceptQ ("002-03") c' = true →
        scoreQ ("002-03") c ≤ scoreQ ("002-03") c') ∧
      _busquedaParcial wIdx3 ("002-03") = a.map (fun img => img.url) :=
  (C3_fuzzy_minimizes_length_difference wIdx3 ("002-03")).2
    ⟨"i-01-002-03x", [{ name := none, url := "u1", size := none },
                      { name := none, url := "u2", size := none }],
      by decide, by decide⟩

/-- C10.  When the first accepted candidate of minimal (non-zero) score sits
between earlier accepted candidates of strictly larger score and later ones
of no smaller score — in particular when a later candidate ties exactly —
`_busquedaParcial` returns the URLs of that first minimal candidate: a later
equal-score candidate never replaces an earlier one. -/
theorem C10_fuzzy_tie_keeps_first (q c1 : String) (a1 : List Entry) (m : Nat)
    (l1 l2 : List (String × List Entry))
    (h1 : acceptQ q c1 = true) (hs : scoreQ q c1 = m) (_hm : m ≠ 0)
    (hbefore : ∀ c a, (c, a) ∈ l1 → acceptQ q c = true → m < scoreQ q c)
    (hafter : ∀ c a, (c, a) ∈ l2 → acceptQ q c = true → m ≤ scoreQ q c)
    (_htie : ∃ c2 a2, (c2, a2) ∈ l2 ∧ acceptQ q c2 = true ∧ scoreQ q c2 = m) :
    _busquedaParcial (l1 ++ (c1, a1) :: l2) q = a1.map (fun img => img.url) := by
  have hhead : firstMinQ q ((c1, a1) :: l2) = some (m, a1) := by
    rw [firstMinQ_cons_accept _ h1, hs]
    cases hfm : firstMinQ q l2 with
    | none => rfl
    | some p =>
      obtain ⟨s', a'⟩ := p
      rcases firstMinQ_spec hfm with ⟨c', hmem', hacc', hs', _⟩
      have hle : m ≤ s' := hs' ▸ hafter c' a' hmem' hacc'
      simp [combineMin, hle]
  have hfull : firstMinQ q (l1 ++ (c1, a1) :: l2) = some (m, a1) := by
    rw [firstMinQ_append, hhead]
    cases hfm : firstMinQ q l1 with
    | none => rfl
    | some p =>
      obtain ⟨s1, b1⟩ := p
      rcases firstMinQ_spec hfm with ⟨c', hmem', hacc', hs', _⟩
      have hlt : m < s1 := hs' ▸ hbefore c' b1 hmem' hacc'
      have hnle : ¬ s1 ≤ m := Nat.not_le.mpr hlt
      simp [combineMin, hnle]
  rw [busquedaParcial_firstMin, hfull]

/-- Concrete index for the C10 witness: two accepted candidates tie at score 1
and the first one in insertion order wins. -/
def wIdx10 : IndexMap :=
  [("zzzzzzzzz", [{ name := none, url := "uz", size := none }]),
   ("ab-1234", [{ name := none, url := "first", size := none }]),
   ("b-12345", [{ name := none, url := "second", size := none }])]

theorem C10_fuzzy_tie_keeps_first_witness :
    _busquedaParcial wIdx10 ("b-1234") = ["first"] :=
  C10_fuzzy_tie_keeps_first ("b-1234") "ab-1234"
    [{ name := none, url := "first", size := none }] 1
    [("zzzzzzzzz", [{ name := none, url := "uz", size := none }])]
    [("b-12345", [{ name := none, url := "second", size := none }])]
    (by decide) (by decide) (by decide)
    (by
      intro c a hm hacc
      rw [List.mem_singleton] at hm
      have hc : c = "zzzzzzzzz" := congrArg Prod.fst hm
      rw [hc] at hacc
      exact absurd hacc (by decide))
    (by
      intro c a hm hacc
      rw [List.mem_singleton] at hm
      have hc : c = "b-12345" := congrArg Prod.fst hm
      rw [hc]
      decide)
    ⟨"b-12345", [{ name := none, url := "second", size := none }],
      List.mem_singleton.mpr rfl, by decide, by decide⟩

/-!
### Exact-match lookups
-/

theorem tryT1_some (idx : IndexMap) (claveNorm : String) (l : List Entry)
    (hk : mapGet idx claveNorm = some l) (hlen : 0 < l.length) :
    tryT1 idx claveNorm = some (l.map (fun img => img.url)) := by
  unfold tryT1
  rw [hk]
  show (if 0 < l.length then some (l.map (fun img => img.url)) else none) =
    some (l.map (fun img => img.url))
  rw [if_pos hlen]

theorem tryT1_none (idx : IndexMap) (claveNorm : String)
    (hk : mapGet idx claveNorm = none) : tryT1 idx claveNorm = none := by
  unfold tryT1
  rw [hk]

/-- A Tier-1 hit: a present, non-empty entry list short-circuits `afterBuild`. -/
theorem afterBuild_t1 (env : Env) (st : St) (claveNorm : String) (l : List Entry)
    (hk : mapGet st.imagenIndex claveNorm = some l) (hlen : 0 < l.length) :
    afterBuild env st claveNorm =
      { result := l.map (fun img => img.url), st := st, rebuilds := 0, tier := Tier.t1 } := by
  unfold afterBuild
  rw [tryT1_some st.imagenIndex claveNorm l hk hlen]

/-- A Tier-1 hit through the whole of `findImageUrls`: with a non-empty
normalized query and a non-empty index holding the key, the exact match wins. -/
theorem findImageUrls_t1 (env : Env) (st : St) (q : String) (l : List Entry)
    (hne : ¬ normQ q = "") (hk : mapGet st.imagenIndex (normQ q) = some l)
    (hlen : 0 < l.length) :
    findImageUrls env st q =
      { result := l.map (fun img => img.url), st := st, rebuilds := 0, tier := Tier.t1 } := by
  have hpos : ¬ st.imagenIndex.length = 0 := Nat.pos_iff_ne_zero.mp (mapGet_pos hk)
  unfold findImageUrls
  rw [if_neg hne, if_neg hpos]
  exact afterBuild_t1 env st (normQ q) l hk hlen

/-- C1 (amended).  For every key `k` of an index produced by a build, if `k`
is reachable by the input normalization (i.e. some query trims and
lower-cases to `k` — equivalently, `k` is itself trimmed and lower-cased),
then `findImageUrls` on any such query answers through the Tier-1 exact
match with exactly the recorded URLs, in insertion order, leaving the state
untouched.  The build guarantees the entry list of a present key is
non-empty. -/
theorem C1_exact_lookup_after_build (env : Env) (dd : DriveData) (st : St)
    (q k : String) (l : List Entry)
    (hidx : st.imagenIndex = (buildFromTree dd).nuevoIndice)
    (hk : mapGet st.imagenIndex k = some l)
    (hq : normQ q = k) :
    findImageUrls env st q =
      { result := l.map (fun img => img.url), st := st, rebuilds := 0, tier := Tier.t1 } := by
  have hinv := (buildFromTree_inv dd).1 k l (by rw [← hidx]; exact hk)
  refine findImageUrls_t1 env st q l ?_ ?_ hinv.2
  · rw [hq]; exact hinv.1
  · rw [hq]; exact hk

/-- Environment for lookup runs whose remote endpoints are all down or empty. -/
def xEnvNone : Env :=
  { versionFetch := none, tree := Except.error ("down"),
    localImages := fun _ => Except.ok [], now := 0 }

/-- Scenario-A tree: one folder with normalized key and two files. -/
def wDD1 : DriveData :=
  { structureChildren := [ { children := some [
      { k := some ("i-01-002-03"), children := some [
        { i := some ("f1"), n := some ("a.jpg"), mediumUrl := some ("u1"), s := some 10 },
        { i := some ("f2"), n := some ("b.jpg"), mediumUrl := some ("u2") } ] } ] } ] }

/-- State after building Scenario-A's tree. -/
def wSt1 : St :=
  { imagenIndex := (buildFromTree wDD1).nuevoIndice,
    aliasIndex := (buildFromTree wDD1).nuevoAlias,
    driveTreeVersion := some ("v1"), store := [] }

theorem C1_exact_lookup_after_build_witness :
    mapGet wSt1.imagenIndex ("i-01-002-03") =
      some [{ name := some ("a.jpg"), url := "u1", size := some 10 },
            { name := some ("b.jpg"), url := "u2", size := none }] ∧
    normQ (" I-01-002-03 ") = "i-01-002-03" ∧
    findImageUrls xEnvNone wSt1 (" I-01-002-03 ") =
      { result := ["u1", "u2"], st := wSt1, rebuilds := 0, tier := Tier.t1 } :=
  ⟨by decide, by decide,
    C1_exact_lookup_after_build xEnvNone wDD1 wSt1 (" I-01-002-03 ") ("i-01-002-03")
      [{ name := some ("a.jpg"), url := "u1", size := some 10 },
       { name := some ("b.jpg"), url := "u2", size := none }]
      rfl (by decide) (by decide)⟩

/-- Tree whose folder carries a server key that is not lower-cased; the
build stores it verbatim. -/
def xDD1 : DriveData :=
  { structureChildren := [ { children := some [
      { k := some ("I-01-002-03"), children := some [
        { i := some ("f1"), mediumUrl := some ("u1") } ] } ] } ] }

/-- State after building `xDD1`. -/
def xSt1 : St :=
  { imagenIndex := (buildFromTree xDD1).nuevoIndice,
    aliasIndex := (buildFromTree xDD1).nuevoAlias,
    driveTreeVersion := some ("v1"), store := [] }

/-- C1 counterexample.  The key `I-01-002-03` is inserted during the build
with one recorded URL, yet `findImageUrls` called with exactly that key
returns the empty list (every tier misses): the claim fails for stored keys
that are not themselves trimmed and lower-cased, because the build trusts
the server key verbatim while the query is normalized. -/
theorem C1_counterexample :
    mapGet xSt1.imagenIndex ("I-01-002-03") =
      some [{ name := none, url := "u1", size := none }] ∧
    (findImageUrls xEnvNone xSt1 ("I-01-002-03")).result = [] := by
  constructor
  · decide
  · decide

/-- C2 (amended).  For an alias `a → k` recorded by a build, provided the
normalized alias is not itself a key of the primary index (Tier 1 precedes
Tier 2) and both `a` and `k` are reachable by input normalization, a lookup
of the alias resolves through the alias index (Tier 2) to exactly the same
URL sequence as the exact lookup of `k`. -/
theorem C2_alias_resolves_like_key (env : Env) (dd : DriveData) (st : St)
    (qa qk a k : String)
    (hidx : st.imagenIndex = (buildFromTree dd).nuevoIndice)
    (hals : st.aliasIndex = (buildFromTree dd).nuevoAlias)
    (ha : mapGet st.aliasIndex a = some k)
    (hshadow : mapGet st.imagenIndex a = none)
    (hqa : normQ qa = a) (hqk : normQ qk = k) :
    (findImageUrls env st qa).result = (findImageUrls env st qk).result ∧
    (findImageUrls env st qa).tier = Tier.t2 := by
  have hinv := (buildFromTree_inv dd).2 a k (by rw [← hals]; exact ha)
  rcases hinv with ⟨hane, l, hkl, hlen⟩
  have hkl' : mapGet st.imagenIndex k = some l := by rw [hidx]; exact hkl
  have hpos : ¬ st.imagenIndex.length = 0 := Nat.pos_iff_ne_zero.mp (mapGet_pos hkl')
  have ht2 : tryT2 st a = some (l.map (fun img => img.url)) := by
    unfold tryT2
    rw [ha]
    show (match mapGet st.imagenIndex k with
      | some l => if 0 < l.length then some (l.map (fun img => img.url)) else none
      | none => none) = some (l.map (fun img => img.url))
    rw [hkl']
    show (if 0 < l.length then some (l.map (fun img => img.url)) else none) =
      some (l.map (fun img => img.url))
    rw [if_pos hlen]
  have hqarun : findImageUrls env st qa =
      { result := l.map (fun img => img.url), st := st, rebuilds := 0, tier := Tier.t2 } := by
    unfold findImageUrls
    rw [hqa, if_neg hane, if_neg hpos]
    unfold afterBuild
    rw [tryT1_none st.imagenIndex a hshadow, ht2]
  have hqkrun : findImageUrls env st qk =
      { result := l.map (fun img => img.url), st := st, rebuilds := 0, tier := Tier.t1 } := by
    refine findImageUrls_t1 env st qk l ?_ ?_ hlen
    · rw [hqk]
      exact ((buildFromTree_inv dd).1 k l hkl).1
    · rw [hqk]; exact hkl'
  rw [hqarun, hqkrun]
  exact ⟨rfl, rfl⟩

/-- Tree with a folder whose alias points at another folder's key. -/
def wDD2 : DriveData :=
  { structureChildren := [ { children := some [
      { k := some ("i-01-002-03"), aliasF := some ("Plaza Centro"), children := some [
        { i := some ("f1"), mediumUrl := some ("u1") },
        { i := some ("f2"), mediumUrl := some ("u2") } ] } ] } ] }

/-- State after building `wDD2`. -/
def wSt2 : St :=
  { imagenIndex := (buildFromTree wDD2).nuevoIndice,
    aliasIndex := (buildFromTree wDD2).nuevoAlias,
    driveTreeVersion := some ("v1"), store := [] }

theorem C2_alias_resolves_like_key_witness :
    mapGet wSt2.aliasIndex ("plaza centro") = some ("i-01-002-03") ∧
    ((findImageUrls xEnvNone wSt2 ("Plaza CENTRO")).result =
        (findImageUrls xEnvNone wSt2 ("I-01-002-03")).result ∧
      (findImageUrls xEnvNone wSt2 ("Plaza CENTRO")).tier = Tier.t2) :=
  ⟨by decide,
    C2_alias_resolves_like_key xEnvNone wDD2 wSt2 ("Plaza CENTRO") "I-01-002-03"
      "plaza centro" "i-01-002-03" rfl rfl (by decide) (by decide) (by decide) (by decide)⟩

/-- Tree where a free-text folder occupies the very key that another
folder's alias lower-cases to. -/
def xDD2 : DriveData :=
  { structureChildren := [ { children := some [
      { name := some ("Plaza Centro"), children := some [
        { i := some ("f1"), mediumUrl := some ("u1") } ] },
      { k := some ("i-01-002-03"), aliasF := some ("Plaza Centro"), children := some [
        { i := some ("f2"), mediumUrl := some ("u2") } ] } ] } ] }

/-- State after building `xDD2`. -/
def xSt2 : St :=
  { imagenIndex := (buildFromTree xDD2).nuevoIndice,
    aliasIndex := (buildFromTree xDD2).nuevoAlias,
    driveTreeVersion := some ("v1"), store := [] }

/-- C2 counterexample.  The build records the alias
`plaza centro → i-01-002-03`, yet `findImageUrls("plaza centro")` returns
`["u1"]` (the free-text folder indexed under that very key wins via Tier 1)
while `findImageUrls("i-01-002-03")` returns `["u2"]`: an alias lookup does
not always match the lookup of its target key. -/
theorem C2_counterexample :
    mapGet xSt2.aliasIndex ("plaza centro") = some ("i-01-002-03") ∧
    (findImageUrls xEnvNone xSt2 ("plaza centro")).result = ["u1"] ∧
    (findImageUrls xEnvNone xSt2 ("i-01-002-03")).result = ["u2"] := by
  refine ⟨by decide, by decide, by decide⟩

/-!
### Staleness recovery and the terminal fallback
-/

/-- With Tiers 1–3 missing, `afterBuild` reduces to the staleness check
followed by a single Tier-1 retry and the Tier-5 endpoint. -/
theorem afterBuild_miss123 (env : Env) (st : St) (claveNorm : String)
    (h1 : tryT1 st.imagenIndex claveNorm = none)
    (h2 : tryT2 st claveNorm = none)
    (h3 : _busquedaParcial st.imagenIndex claveNorm = []) :
    afterBuild env st claveNorm =
      (if (verificarActualizacionIndice env st).necesitaActualizar then
        (match mapGet (construirIndiceImagenes env st true).2.imagenIndex claveNorm with
         | some l =>
           if 0 < l.length then
             { result := l.map (fun img => img.url),
               st := (construirIndiceImagenes env st true).2, rebuilds := 1, tier := Tier.t4 }
           else
             { result := _buscarImagenesLocales env claveNorm,
               st := (construirIndiceImagenes env st true).2, rebuilds := 1, tier := Tier.t5 }
         | none =>
           { result := _buscarImagenesLocales env claveNorm,
             st := (construirIndiceImagenes env st true).2, rebuilds := 1, tier := Tier.t5 })
      else
        { result := _buscarImagenesLocales env claveNorm, st := st, rebuilds := 0,
          tier := Tier.t5 }) := by
  unfold afterBuild
  rw [h1, h2, h3]
  rw [if_neg (by decide : ¬ 0 < ([] : List String).length)]

/-- The stale-version check fires exactly for a fetched token different
from the held one. -/
theorem verificar_needs_update (env : Env) (st : St) (v : String)
    (hv : env.versionFetch = some v) (hvne : some v ≠ st.driveTreeVersion) :
    verificarActualizacionIndice env st =
      { necesitaActualizar := true, nuevaVersion := some v } := by
  unfold verificarActualizacionIndice
  rw [hv]
  show (if some v ≠ st.driveTreeVersion then
      ({ necesitaActualizar := true, nuevaVersion := some v } : ActOut)
    else { necesitaActualizar := false }) = _
  rw [if_pos hvne]

/-- C4.  In one `findImageUrls` call where Tiers 1–3 miss and the fetched
remote version differs from the held version, exactly one forced rebuild
runs (`rebuilds := 1` on every remaining path); afterwards only the Tier-1
exact match is retried on the new index — never the fuzzy scan — and on a
retry miss the call delegates to the Tier-5 local-images endpoint. -/
theorem C4_stale_rebuild_once_then_t1_retry (env : Env) (st : St) (q v : String)
    (hne : ¬ normQ q = "")
    (hempty : ¬ st.imagenIndex.length = 0)
    (h1 : tryT1 st.imagenIndex (normQ q) = none)
    (h2 : tryT2 st (normQ q) = none)
    (h3 : _busquedaParcial st.imagenIndex (normQ q) = [])
    (hv : env.versionFetch = some v) (hvne : some v ≠ st.driveTreeVersion) :
    findImageUrls env st q =
      (match mapGet (construirIndiceImagenes env st true).2.imagenIndex (normQ q) with
       | some l =>
         if 0 < l.length then
           { result := l.map (fun img => img.url),
             st := (construirIndiceImagenes env st true).2, rebuilds := 1, tier := Tier.t4 }
         else
           { result := _buscarImagenesLocales env (normQ q),
             st := (construirIndiceImagenes env st true).2, rebuilds := 1, tier := Tier.t5 }
       | none =>
         { result := _buscarImagenesLocales env (normQ q),
           st := (construirIndiceImagenes env st true).2, rebuilds := 1, tier := Tier.t5 }) := by
  have hrun : findImageUrls env st q = afterBuild env st (normQ q) := by
    unfold findImageUrls
    rw [if_neg hne, if_neg hempty]
  rw [hrun, afterBuild_miss123 env st (normQ q) h1 h2 h3,
    verificar_needs_update env st v hv hvne]
  rfl

/-- Environment for the C4 witness: the remote version moved to `v2` and the
tree now carries Scenario A's folder. -/
def wEnv4 : Env :=
  { versionFetch := some ("v2"), tree := Except.ok wDD1,
    localImages := fun _ => Except.ok [], now := 0 }

/-- State for the C4 witness: an index without the queried key, held at `v1`. -/
def wSt4 : St :=
  { imagenIndex := [("zzz", [{ name := none, url := "uz", size := none }])],
    aliasIndex := [], driveTreeVersion := some ("v1"), store := [] }

theorem C4_stale_rebuild_once_then_t1_retry_witness :
    (findImageUrls wEnv4 wSt4 (" I-01-002-03 ")).result = ["u1", "u2"] ∧
    (findImageUrls wEnv4 wSt4 (" I-01-002-03 ")).rebuilds = 1 ∧
    (findImageUrls wEnv4 wSt4 (" I-01-002-03 ")).tier = Tier.t4 := by
  have h := C4_stale_rebuild_once_then_t1_retry wEnv4 wSt4 (" I-01-002-03 ") ("v2")
    (by decide) (by decide) (by decide) (by decide) (by decide) rfl (by decide)
  rw [h]
  exact ⟨by decide, by decide, by decide⟩

/-- Every `afterBuild` outcome tagged Tier 5 carries a result of the Tier-5
endpoint; with that endpoint empty or failing, the result is empty. -/
theorem afterBuild_t5_result (env : Env) (st : St) (cn : String)
    (hbl : ∀ s, _buscarImagenesLocales env s = [])
    (ht : (afterBuild env st cn).tier = Tier.t5) :
    (afterBuild env st cn).result = [] := by
  unfold afterBuild at ht ⊢
  cases h1 : tryT1 st.imagenIndex cn with
  | some urls =>
    rw [h1] at ht
    have ht' : Tier.t1 = Tier.t5 := ht
    exact Tier.noConfusion ht'
  | none =>
    rw [h1] at ht
    cases h2 : tryT2 st cn with
    | some urls =>
      rw [h2] at ht
      have ht' : Tier.t2 = Tier.t5 := ht
      exact Tier.noConfusion ht'
    | none =>
      rw [h2] at ht
      by_cases hp : 0 < (_busquedaParcial st.imagenIndex cn).length
      · rw [if_pos hp] at ht
        have ht' : Tier.t3 = Tier.t5 := ht
        exact Tier.noConfusion ht'
      · rw [if_neg hp] at ht ⊢
        by_cases hact : (verificarActualizacionIndice env st).necesitaActualizar = true
        · rw [if_pos hact] at ht ⊢
          cases hr : mapGet (construirIndiceImagenes env st true).2.imagenIndex cn with
          | some l =>
            rw [hr] at ht
            have ht2 : ((if 0 < l.length then
                ({ result := l.map (fun img => img.url),
                   st := (construirIndiceImagenes env st true).2, rebuilds := 1,
                   tier := Tier.t4 } : FindOut)
              else
                { result := _buscarImagenesLocales env cn,
                  st := (construirIndiceImagenes env st true).2, rebuilds := 1,
                  tier := Tier.t5 }) : FindOut).tier = Tier.t5 := ht
            show ((if 0 < l.length then
                ({ result := l.map (fun img => img.url),
                   st := (construirIndiceImagenes env st true).2, rebuilds := 1,
                   tier := Tier.t4 } : FindOut)
              else
                { result := _buscarImagenesLocales env cn,
                  st := (construirIndiceImagenes env st true).2, rebuilds := 1,
                  tier := Tier.t5 }) : FindOut).result = []
            by_cases hl : 0 < l.length
            · rw [if_pos hl] at ht2
              exact Tier.noConfusion ht2
            · rw [if_neg hl]
              exact hbl cn
          | none =>
            exact hbl cn
        · rw [if_neg hact]
          exact hbl cn

/-- C5.  `findImageUrls` is a total function of its inputs — no input makes
it raise — and whenever the call falls through to the Tier-5 terminal
endpoint (every earlier tier missed) while that endpoint fails or returns
nothing for every key, the call returns the empty sequence. -/
theorem C5_exhausted_lookup_returns_empty (env : Env) (st : St) (q : String)
    (hloc : ∀ s, env.localImages s = Except.error () ∨ env.localImages s = Except.ok [])
    (ht : (findImageUrls env st q).tier = Tier.t5) :
    (findImageUrls env st q).result = [] := by
  have hbl : ∀ s, _buscarImagenesLocales env s = [] := by
    intro s
    unfold _buscarImagenesLocales
    rcases hloc s with h | h
    · rw [h]
    · rw [h]
      rfl
  unfold findImageUrls at ht ⊢
  by_cases hq : normQ q = ""
  · rw [if_pos hq]
    exact hbl ("")
  · rw [if_neg hq] at ht ⊢
    by_cases hlen : st.imagenIndex.length = 0
    · rw [if_pos hlen] at ht ⊢
      by_cases hsucc : (construirIndiceImagenes env st false).1.success = false
      · rw [if_pos hsucc]
        exact hbl (normQ q)
      · rw [if_neg hsucc] at ht ⊢
        exact afterBuild_t5_result env _ (normQ q) hbl ht
    · rw [if_neg hlen] at ht ⊢
      exact afterBuild_t5_result env st (normQ q) hbl ht

/-- Empty state for the C5 witness: no index, no cache, endpoints down. -/
def wSt5 : St :=
  { imagenIndex := [], aliasIndex := [], driveTreeVersion := none, store := [] }

theorem C5_exhausted_lookup_returns_empty_witness :
    (findImageUrls xEnvNone wSt5 ("nope")).tier = Tier.t5 ∧
    (findImageUrls xEnvNone wSt5 ("nope")).result = [] :=
  ⟨by decide,
    C5_exhausted_lookup_returns_empty xEnvNone wSt5 ("nope") (fun _ => Or.inr rfl) (by decide)⟩

/-!
### Offline fallback and the cache TTL
-/

/-- C6.  When the tree download fails during a build that reaches it (the
quick version path and the fresh-cache path do not answer first), and the
storage scan finds a stored version — the first index payload in key order
that has a metadata record, with no freshness check whatever its
timestamp — the build returns `{success := true, fromCache := true,
isFallback := true}` and installs that version's index, alias map and
version token.  Nothing in the conclusion depends on `env.now`, so no TTL
filtering is applied. -/
theorem C6_fallback_on_network_failure (env : Env) (st : St) (forzar : Bool)
    (msg ver : String) (d : IndexMap) (als : AliasMap)
    (htree : env.tree = Except.error msg)
    (hskip1 : forzar = true ∨ st.driveTreeVersion ≠ some (versionOf env) ∨
      st.imagenIndex = [])
    (hskip2 : forzar = true ∨ versionOf env = "unknown" ∨
      _cargarDesdeCacheLocal env st (versionOf env) = none)
    (hfb : fallbackScan st.store st.store = some (ver, d, als)) :
    construirIndiceImagenes env st forzar =
      ({ success := true, fromCache := true, isFallback := true },
       { st with imagenIndex := d, aliasIndex := als, driveTreeVersion := some ver }) := by
  have hcond : ¬ (forzar = false ∧ st.driveTreeVersion = some (versionOf env) ∧
      0 < st.imagenIndex.length) := by
    rcases hskip1 with h | h | h
    · rintro ⟨h1, -, -⟩; rw [h] at h1; exact Bool.noConfusion h1
    · rintro ⟨-, h2, -⟩; exact h h2
    · rintro ⟨-, -, h3⟩; rw [h] at h3; exact Nat.lt_irrefl 0 h3
  have hcached : (if forzar = false ∧ versionOf env ≠ "unknown" then
      _cargarDesdeCacheLocal env st (versionOf env)
    else none) = none := by
    rcases hskip2 with h | h | h
    · rw [if_neg]
      rintro ⟨h1, -⟩; rw [h] at h1; exact Bool.noConfusion h1
    · rw [if_neg]
      rintro ⟨-, h2⟩; exact h2 h
    · by_cases hc : forzar = false ∧ versionOf env ≠ "unknown"
      · rw [if_pos hc]; exact h
      · rw [if_neg hc]
  unfold construirIndiceImagenes
  rw [if_neg hcond, hcached, htree]
  unfold _cargarFallbackLocal
  rw [hfb]

/-- Store for the C6 and C9 witnesses: one cached version `v9` whose
metadata record is far past the 2-hour TTL. -/
def wStore6 : List (String × StoreVal) :=
  [(idxKey ("v9"), StoreVal.idx [("i-09", [{ name := none, url := "u9", size := none }])]),
   (alsKey ("v9"), StoreVal.als [("plaza nueve", "i-09")]),
   (metaKey ("v9"), StoreVal.meta 0 ("v9") 1 1)]

/-- State holding only that stale cached version. -/
def wSt6 : St :=
  { imagenIndex := [], aliasIndex := [], driveTreeVersion := none, store := wStore6 }

/-- Environment for the C6 witness: both endpoints down, the clock far past
every TTL. -/
def wEnv6 : Env :=
  { versionFetch := none, tree := Except.error ("offline"),
    localImages := fun _ => Except.ok [], now := 1000000000 }

theorem C6_fallback_on_network_failure_witness :
    construirIndiceImagenes wEnv6 wSt6 false =
      ({ success := true, fromCache := true, isFallback := true },
       { wSt6 with imagenIndex := [("i-09", [{ name := none, url := "u9", size := none }])],
                   aliasIndex := [("plaza nueve", "i-09")],
                   driveTreeVersion := some ("v9") }) :=
  C6_fallback_on_network_failure wEnv6 wSt6 false ("offline") "v9"
    [("i-09", [{ name := none, url := "u9", size := none }])]
    [("plaza nueve", "i-09")]
    rfl (Or.inr (Or.inl (by decide))) (Or.inr (Or.inl rfl)) (by decide)

/-- The alias map restored alongside a cached index for a version. -/
def restoredAlias (st : St) (v : String) : AliasMap :=
  match mapGet st.store (alsKey v) with
  | some (StoreVal.als a) => a
  | _ => []

/-- The reduced form of `_cargarDesdeCacheLocal` once both the index payload
and a metadata record are present. -/
theorem cargarCache_reduce (env : Env) (st : St) (v : String) (d : IndexMap)
    (ts : Nat) (vv : String) (c a : Nat)
    (hidx : mapGet st.store (idxKey v) = some (StoreVal.idx d))
    (hmeta : mapGet st.store (metaKey v) = some (StoreVal.meta ts vv c a)) :
    _cargarDesdeCacheLocal env st v =
      (if TTL_CACHE_MS ≤ env.now - ts then none
       else some (({ success := true, fromCache := true } : BuildResult),
         ({ st with imagenIndex := d,
                    aliasIndex := restoredAlias st v,
                    driveTreeVersion := some v } : St))) := by
  unfold _cargarDesdeCacheLocal
  rw [hidx, hmeta]
  rfl

/-- C9.  `_cargarDesdeCacheLocal` restores an index only when a metadata
record exists for the requested version and its age is strictly below the
2-hour TTL; a record whose age equals the TTL exactly is stale and the load
returns `none`. -/
theorem C9_cache_ttl_strict (env : Env) (st : St) (v : String) :
    (∀ r, _cargarDesdeCacheLocal env st v = some r →
      ∃ ts vv c a, mapGet st.store (metaKey v) = some (StoreVal.meta ts vv c a) ∧
        env.now - ts < TTL_CACHE_MS) ∧
    (∀ ts vv c a, mapGet st.store (metaKey v) = some (StoreVal.meta ts vv c a) →
      env.now - ts = TTL_CACHE_MS → _cargarDesdeCacheLocal env st v = none) := by
  constructor
  · intro r hr
    unfold _cargarDesdeCacheLocal at hr
    cases hidx : mapGet st.store (idxKey v) with
    | none => rw [hidx] at hr; exact Option.noConfusion hr
    | some vi =>
      rw [hidx] at hr
      cases hmeta : mapGet st.store (metaKey v) with
      | none =>
        rw [hmeta] at hr
        cases vi <;> exact Option.noConfusion hr
      | some vm =>
        rw [hmeta] at hr
        cases vi with
        | idx d =>
          cases vm with
          | meta ts vv c a =>
            by_cases hfresh : TTL_CACHE_MS ≤ env.now - ts
            · have hr2 : (if TTL_CACHE_MS ≤ env.now - ts then none
                  else some (({ success := true, fromCache := true } : BuildResult),
                    ({ st with imagenIndex := d,
                               aliasIndex := restoredAlias st v,
                               driveTreeVersion := some v } : St))) = some r := hr
              rw [if_pos hfresh] at hr2
              exact Option.noConfusion hr2
            · exact ⟨ts, vv, c, a, rfl, Nat.lt_of_not_le hfresh⟩
          | idx d' => exact Option.noConfusion hr
          | als a' => exact Option.noConfusion hr
        | als a' => cases vm <;> exact Option.noConfusion hr
        | meta ts2 vv2 c2 a2 => cases vm <;> exact Option.noConfusion hr
  · intro ts vv c a hmeta hage
    cases hidx : mapGet st.store (idxKey v) with
    | none => unfold _cargarDesdeCacheLocal; rw [hidx]
    | some vi =>
      cases vi with
      | idx d =>
        rw [cargarCache_reduce env st v d ts vv c a hidx hmeta,
          if_pos (Nat.le_of_eq hage.symm)]
      | als a' =>
        unfold _cargarDesdeCacheLocal
        rw [hidx, hmeta]
      | meta ts2 vv2 c2 a2 =>
        unfold _cargarDesdeCacheLocal
        rw [hidx, hmeta]

/-- Environment for the C9 witness: the clock sits exactly at the TTL
boundary relative to `wStore6`'s metadata timestamp of zero. -/
def wEnv9 : Env :=
  { versionFetch := none, tree := Except.error ("x"),
    localImages := fun _ => Except.ok [], now := TTL_CACHE_MS }

theorem C9_cache_ttl_strict_witness :
    _cargarDesdeCacheLocal wEnv9 wSt6 ("v9") = none :=
  (C9_cache_ttl_strict wEnv9 wSt6 ("v9")).2 0 ("v9") 1 1 (by decide) (by decide)

/-!
### Folder skipping during the build
-/

/-- C7 (amended).  A folder is skipped entirely — no primary-index entry, no
alias, zero files counted — precisely in three cases: it has no (or an
empty) file list, its resolved key is the empty string (no server key and a
name whose heuristic result is empty, i.e. a name that trims to nothing),
or none of its files is accepted.  In particular a folder whose free-text
name matches no key pattern is not skipped: it is indexed under the
trimmed, lower-cased name, which is empty only for an all-whitespace name.
This theorem covers the empty-resolved-key case the original claim
describes. -/
theorem C7_empty_key_folder_skipped (acc : BuildAcc) (carpeta : Carpeta)
    (h : claveNormOf carpeta = "") :
    procesarCarpeta acc carpeta = acc := by
  unfold procesarCarpeta
  cases carpeta.children with
  | none => rfl
  | some files => simp [h]

/-- A folder whose name is pure whitespace and so resolves to the empty key. -/
def wCarpeta7 : Carpeta :=
  { name := some ("   "), children := some [{ i := some ("f1"), mediumUrl := some ("u1") }] }

/-- The builder's starting accumulator. -/
def emptyAcc : BuildAcc :=
  { nuevoIndice := [], nuevoAlias := [], totalCarpetas := 0, totalArchivos := 0 }

theorem C7_empty_key_folder_skipped_witness :
    claveNormOf wCarpeta7 = "" ∧ procesarCarpeta emptyAcc wCarpeta7 = emptyAcc :=
  ⟨by decide, C7_empty_key_folder_skipped emptyAcc wCarpeta7 (by decide)⟩

/-- Tree with a single folder whose free-text name matches no key pattern. -/
def xDD7 : DriveData :=
  { structureChildren := [ { children := some [
      { name := some ("Plaza Centro"), children := some [
        { i := some ("f1"), n := some ("c.jpg"), mediumUrl := some ("u1") } ] } ] } ] }

/-- C7 counterexample.  A folder with no server key field and no extractable
`<type>-<region>-<number>-<sub>` pattern in its name is not skipped: the
heuristic falls back to the trimmed, lower-cased free text, the folder is
indexed under `"plaza centro"`, and its file is counted. -/
theorem C7_counterexample :
    execPatron ("Plaza Centro").data = none ∧
    (buildFromTree xDD7).totalArchivos = 1 ∧
    (buildFromTree xDD7).totalCarpetas = 1 ∧
    mapGet (buildFromTree xDD7).nuevoIndice ("plaza centro") =
      some [{ name := some ("c.jpg"), url := "u1", size := none }] := by
  refine ⟨by decide, by decide, by decide, by decide⟩

/-!
### Saving never checks a size ceiling
-/

theorem listAny_false {α : Type} (p : α → Bool) (l : List α)
    (h : ∀ x, x ∈ l → p x = false) : l.any p = false := by
  induction l with
  | nil => rfl
  | cons x rest ih =>
    rw [List.any_cons, h x (List.mem_cons_self _ _), Bool.false_or]
    exact ih (fun y hy => h y (List.mem_cons_of_mem _ hy))

/-- The cleanup pass keeps every entry whose key matches no stale version's
index, alias or metadata key. -/
theorem cleanup_keeps (ahora : Nat) (store : List (String × StoreVal)) (key : String)
    (hkeep : ∀ ver, ver ∈ staleVersOf ahora store →
      key ≠ idxKey ver ∧ key ≠ alsKey ver ∧ key ≠ metaKey ver) :
    mapGet (cleanupStore ahora store) key = mapGet store key := by
  unfold cleanupStore
  apply mapGet_filter
  intro v' _
  have hany : (staleVersOf ahora store).any
      (fun ver => decide (key = idxKey ver ∨ key = alsKey ver ∨ key = metaKey ver)) = false := by
    apply listAny_false
    intro ver hver
    rcases hkeep ver hver with ⟨h1, h2, h3⟩
    exact decide_eq_false (by rintro (h | h | h) <;> [exact h1 h; exact h2 h; exact h3 h])
  show (!((staleVersOf ahora store).any
    (fun ver => decide (key = idxKey ver ∨ key = alsKey ver ∨ key = metaKey ver)))) = true
  rw [hany]
  rfl

/-- C8 (amended).  `_guardarEnCacheLocal` applies no size ceiling: for every
known version it persists the index payload and a fresh metadata record
whatever the serialized size of the index (the statement quantifies over
every state, hence over payloads of every size), and the cleanup pass never
removes the entries just written.  The version-shape hypotheses rule out a
version string colliding with another version's alias key; the `Nodup`
hypothesis is the `localStorage` key-uniqueness invariant. -/
theorem C8_save_has_no_size_ceiling (env : Env) (st : St) (v : String) (c a : Nat)
    (hv : ¬ v = "unknown") (hva : startsWithS v ("alias_") = false)
    (hnd : (st.store.map Prod.fst).Nodup) :
    mapGet (_guardarEnCacheLocal env st v c a).store (idxKey v) =
      some (StoreVal.idx st.imagenIndex) ∧
    mapGet (_guardarEnCacheLocal env st v c a).store (metaKey v) =
      some (StoreVal.meta env.now v c a) := by
  have hials : idxKey v ≠ alsKey v := by
    intro h
    have he := idxKey_eq_alsKey h
    have hlen := congrArg lenS he
    rw [lenS_append] at hlen
    have h6 : lenS ("alias_") = 6 := by decide
    omega
  have hguard : _guardarEnCacheLocal env st v c a =
      { st with store := cleanupStore env.now (mapSet (mapSet (mapSet st.store (idxKey v)
          (StoreVal.idx st.imagenIndex)) (alsKey v) (StoreVal.als st.aliasIndex)) (metaKey v)
          (StoreVal.meta env.now v c a)) } := by
    unfold _guardarEnCacheLocal
    rw [if_neg hv]
  have hstore : (_guardarEnCacheLocal env st v c a).store =
      cleanupStore env.now (mapSet (mapSet (mapSet st.store (idxKey v)
        (StoreVal.idx st.imagenIndex)) (alsKey v) (StoreVal.als st.aliasIndex)) (metaKey v)
        (StoreVal.meta env.now v c a)) := congrArg St.store hguard
  have h3meta : mapGet (mapSet (mapSet (mapSet st.store (idxKey v)
      (StoreVal.idx st.imagenIndex)) (alsKey v) (StoreVal.als st.aliasIndex)) (metaKey v)
      (StoreVal.meta env.now v c a)) (metaKey v) = some (StoreVal.meta env.now v c a) :=
    mapGet_mapSet_self _ _ _
  have h3idx : mapGet (mapSet (mapSet (mapSet st.store (idxKey v)
      (StoreVal.idx st.imagenIndex)) (alsKey v) (StoreVal.als st.aliasIndex)) (metaKey v)
      (StoreVal.meta env.now v c a)) (idxKey v) = some (StoreVal.idx st.imagenIndex) := by
    rw [mapGet_mapSet_ne _ _ _ _ (idxKey_ne_metaKey v v)]
    rw [mapGet_mapSet_ne _ _ _ _ hials]
    exact mapGet_mapSet_self _ _ _
  have h3nd : ((mapSet (mapSet (mapSet st.store (idxKey v)
      (StoreVal.idx st.imagenIndex)) (alsKey v) (StoreVal.als st.aliasIndex)) (metaKey v)
      (StoreVal.meta env.now v c a)).map Prod.fst).Nodup :=
    nodup_keys_mapSet _ _ (nodup_keys_mapSet _ _ (nodup_keys_mapSet _ _ hnd))
  have hvstale : ∀ ver, ver ∈ staleVersOf env.now (mapSet (mapSet (mapSet st.store (idxKey v)
      (StoreVal.idx st.imagenIndex)) (alsKey v) (StoreVal.als st.aliasIndex)) (metaKey v)
      (StoreVal.meta env.now v c a)) → v ≠ ver := by
    intro ver hver he
    rcases mem_staleVersOf hver with ⟨ts, vv, c', a', hmem, hstale⟩
    have hget := mapGet_of_mem_nodup hmem h3nd
    rw [← he] at hget
    rw [h3meta] at hget
    simp only [Option.some.injEq, StoreVal.meta.injEq] at hget
    rcases hget with ⟨hts, -, -, -⟩
    rw [← hts] at hstale
    omega
  have hkeepidx : ∀ ver, ver ∈ staleVersOf env.now (mapSet (mapSet (mapSet st.store (idxKey v)
      (StoreVal.idx st.imagenIndex)) (alsKey v) (StoreVal.als st.aliasIndex)) (metaKey v)
      (StoreVal.meta env.now v c a)) →
      idxKey v ≠ idxKey ver ∧ idxKey v ≠ alsKey ver ∧ idxKey v ≠ metaKey ver := by
    intro ver hver
    refine ⟨fun h => hvstale ver hver (idxKey_inj h), fun h => ?_, idxKey_ne_metaKey v ver⟩
    have he := idxKey_eq_alsKey h
    rw [he] at hva
    rw [startsWithS_append ("alias_") ver] at hva
    exact Bool.noConfusion hva
  have hkeepmeta : ∀ ver, ver ∈ staleVersOf env.now (mapSet (mapSet (mapSet st.store (idxKey v)
      (StoreVal.idx st.imagenIndex)) (alsKey v) (StoreVal.als st.aliasIndex)) (metaKey v)
      (StoreVal.meta env.now v c a)) →
      metaKey v ≠ idxKey ver ∧ metaKey v ≠ alsKey ver ∧ metaKey v ≠ metaKey ver := by
    intro ver hver
    exact ⟨Ne.symm (idxKey_ne_metaKey ver v), Ne.symm (alsKey_ne_metaKey ver v),
      fun h => hvstale ver hver (metaKey_inj h)⟩
  constructor
  · rw [hstore, cleanup_keeps _ _ _ hkeepidx]
    exact h3idx
  · rw [hstore, cleanup_keeps _ _ _ hkeepmeta]
    exact h3meta

/-- A five-million-character URL, so the serialized index payload exceeds
4.5 MB under any byte-per-character convention. -/
def bigUrl : String := String.mk (List.replicate 5000000 'a')

/-- The index holding that entry. -/
def bigIdx : IndexMap := [("big", [{ name := none, url := bigUrl, size := none }])]

/-- State whose in-memory index serializes to more than 4.5 MB. -/
def bigSt : St :=
  { imagenIndex := bigIdx, aliasIndex := [], driveTreeVersion := none, store := [] }

/-- Environment for the oversized save. -/
def wEnv8 : Env :=
  { versionFetch := some ("v1"), tree := Except.error ("x"),
    localImages := fun _ => Except.ok [], now := 0 }

theorem escape_replicate (n : Nat) :
    (List.replicate n 'a').foldr (fun ch acc => jsonEscChar ch ++ acc) [] =
      List.replicate n 'a' := by
  induction n with
  | zero => rfl
  | succ n ih =>
    rw [List.replicate_succ, List.foldr_cons, ih]
    rfl

theorem lenS_jsonEscape_bigUrl : lenS (jsonEscape bigUrl) = 5000000 := by
  show ((List.replicate 5000000 'a').foldr (fun ch acc => jsonEscChar ch ++ acc) []).length =
    5000000
  rw [escape_replicate]
  exact List.length_replicate 5000000 'a'

theorem big_payload_exceeds : 4718592 < lenS (jsonOfIndex bigIdx) := by
  have h : jsonOfIndex bigIdx =
      "[" ++ ("[" ++ (("\"" ++ jsonEscape ("big") ++ "\"") ++ "," ++
        ("[" ++ ("\x7b" ++ "" ++ ("\"url\":" ++ ("\"" ++ jsonEscape bigUrl ++ "\"")) ++
          "" ++ "\x7d") ++ "]")) ++ "]") ++ "]" := rfl
  rw [h]
  simp only [lenS_append, lenS_jsonEscape_bigUrl]
  omega

/-- C8 counterexample.  The serialized index payload of `bigSt` is far past
the ~4.5 MB ceiling the claim describes, yet `_guardarEnCacheLocal` persists
it: the save function contains no size check at all (the ceiling exists only
in the unrelated map-data cache of `mapa.js`). -/
theorem C8_counterexample :
    4718592 < lenS (jsonOfIndex bigSt.imagenIndex) ∧
    mapGet (_guardarEnCacheLocal wEnv8 bigSt ("v1") 1 1).store (idxKey ("v1")) =
      some (StoreVal.idx bigSt.imagenIndex) := by
  constructor
  · exact big_payload_exceeds
  · rfl

/-- A small state for the C8 witness. -/
def wSt8 : St :=
  { imagenIndex := [("i-01", [{ name := none, url := "u1", size := none }])],
    aliasIndex := [], driveTreeVersion := none, store := [] }

theorem C8_save_has_no_size_ceiling_witness :
    mapGet (_guardarEnCacheLocal wEnv8 wSt8 ("v1") 1 1).store (idxKey ("v1")) =
      some (StoreVal.idx wSt8.imagenIndex) ∧
    mapGet (_guardarEnCacheLocal wEnv8 wSt8 ("v1") 1 1).store (metaKey ("v1")) =
      some (StoreVal.meta wEnv8.now ("v1") 1 1) :=
  C8_save_has_no_size_ceiling wEnv8 wSt8 ("v1") 1 1 (by decide) (by decide) (by decide)
